import Mathlib

/-!
# Quake asset decoding: `BSPParser.cpp` and `PAKParser.cpp`

A shallow embedding of the level loader of `fluffels/quark` and the properties
of it that the design document states.

Conventions of the embedding.

* A C `char` is a `Char`; a buffer of bytes is a `List Char`.  A C string is
  the part of its buffer before the first NUL (`cstr`).
* An `int` is an `Int`; where the C code can leave the 32-bit range the
  reduction is written out (`wrapInt32`, `clampInt32`).
* A `float` is given by its three IEEE-754 bit fields (`Float32`).
* Code that can fault (a write outside an array, a null dereference, a thrown
  `runtime_error`) returns `Except Fault`.
-/

namespace Quark

/-! ## Machine numbers -/

/-- The ways in which the modelled code can stop without a result. -/
inductive Fault where
  /-- A write outside the bounds of a local array. -/
  | bufferOverrun
  /-- A write through a null pointer. -/
  | nullDereference
  /-- The invalid-parameter handler of a checked CRT function (`strncpy_s`). -/
  | invalidParameter
  /-- A thrown `runtime_error("unexpected EOF")`. -/
  | unexpectedEof
  /-- A thrown `runtime_error("BSP is not version 29")`. -/
  | badVersion
  /-- A thrown `runtime_error("this is not a PAK file")`. -/
  | notPak
  /-- A thrown `runtime_error("could not find ...")`. -/
  | notFound
  /-- A read outside the bounds of an object. -/
  | readOverrun
deriving DecidableEq

/-- The value of a 32-bit two's-complement `int` holding `z` modulo `2 ^ 32`. -/
def wrapInt32 (z : Int) : Int := (z + 2147483648) % 4294967296 - 2147483648

/-- Saturation of `z` to the range of a 32-bit `int`. -/
def clampInt32 (z : Int) : Int :=
  if z < -2147483648 then -2147483648 else if 2147483647 < z then 2147483647 else z

/-- An IEEE-754 binary32 number (`float`), as its sign bit, its biased 8-bit
exponent and its 23-bit mantissa. -/
structure Float32 where
  sign : Bool
  exponent : Nat
  mantissa : Nat
deriving DecidableEq

namespace Float32

/-- The `float` `+0.0f`: what value-initialisation (`entity = {}`) stores. -/
def zero : Float32 := ⟨false, 0, 0⟩

/-- Unary minus on a `float`: the sign bit is flipped, nothing else changes. -/
def neg (f : Float32) : Float32 := { f with sign := !f.sign }

/-- Index of the leading one bit of `m`, for `m < 2 ^ fuel` (`0` when `m < 2`). -/
def leadingBit : Nat → Nat → Nat
  | 0, _ => 0
  | fuel + 1, m => if m < 2 then 0 else leadingBit fuel (m / 2) + 1

/-- The `float` nearest to `± m` (ties to even), for a magnitude `m` of a
32-bit `int`; magnitude `0` gives `+0.0f`. -/
def ofMagnitude (sign : Bool) (m : Nat) : Float32 :=
  if m = 0 then zero
  else
    let k := leadingBit 32 m
    if k ≤ 23 then ⟨sign, 127 + k, m * 2 ^ (23 - k) - 2 ^ 23⟩
    else
      let q := m / 2 ^ (k - 23)
      let r := m % 2 ^ (k - 23)
      let half := 2 ^ (k - 24)
      let q := if half < r ∨ (r = half ∧ q % 2 = 1) then q + 1 else q
      if q = 2 ^ 24 then ⟨sign, 128 + k, 0⟩ else ⟨sign, 127 + k, q - 2 ^ 23⟩

/-- The conversion `(float)n` of an `int`. -/
def ofInt (n : Int) : Float32 := ofMagnitude (decide (n < 0)) n.natAbs

/-- The integer that a `float` denotes, when it denotes one (`none` for
fractions, subnormals, infinities and NaN). -/
def toInt? (f : Float32) : Option Int :=
  if f.exponent = 0 then (if f.mantissa = 0 then some 0 else none)
  else if 255 ≤ f.exponent then none
  else
    let sig := 2 ^ 23 + f.mantissa
    let mag : Option Nat :=
      if 150 ≤ f.exponent then some (sig * 2 ^ (f.exponent - 150))
      else if sig % 2 ^ (150 - f.exponent) = 0 then some (sig / 2 ^ (150 - f.exponent))
      else none
    mag.map fun m => if f.sign then -(m : Int) else (m : Int)

end Float32

/-- The type `glm::vec3`: three `float` components. -/
structure vec3 where
  x : Float32
  y : Float32
  z : Float32
deriving DecidableEq

/-- The vector `vec3{}`, all components `+0.0f`. -/
def vec3.zero : vec3 := ⟨Float32.zero, Float32.zero, Float32.zero⟩

/-- The function `void fixCoords(vec3& v)` (BSPParser.cpp 8-15), returning the updated `v`. -/
def fixCoords (v : vec3) : vec3 :=
  let y := Float32.neg v.z
  let z := Float32.neg v.y
  { v with y := y, z := z }

/-! ## C strings -/

/-- The NUL character. -/
def NUL : Char := Char.ofNat 0

/-- The C string stored in a buffer: the bytes before the first NUL. -/
def cstr (buffer : List Char) : List Char := buffer.takeWhile (fun c => c != NUL)

/-- The function `isspace` in the "C" locale: space, `\t`, `\n`, `\v`, `\f`, `\r`. -/
def isspace (c : Char) : Bool := c == ' ' || (9 ≤ c.toNat && c.toNat ≤ 13)

/-- The function `isdigit`. -/
def isdigit (c : Char) : Bool := 48 ≤ c.toNat && c.toNat ≤ 57

/-- The value of a run of decimal digits, read left to right. -/
def digitsValue (ds : List Char) : Nat :=
  ds.foldl (fun acc c => acc * 10 + (c.toNat - 48)) 0

/-- The function `atoi` on a C string: leading white space is skipped, an optional sign is
read, then the longest run of digits; any other text gives `0`.  A value
outside the range of `int` saturates (the behaviour of the Microsoft CRT,
whose `fread_s` and `strncpy_s` the code calls). -/
def atoi (s : List Char) : Int :=
  match s.dropWhile isspace with
  | [] => 0
  | c :: r =>
    if c = '-' then clampInt32 (-(digitsValue (r.takeWhile isdigit) : Int))
    else if c = '+' then clampInt32 (digitsValue (r.takeWhile isdigit) : Int)
    else clampInt32 (digitsValue ((c :: r).takeWhile isdigit) : Int)

/-- The call `strstr(s, " ")`: the text before the first space and the text after it,
or `none` (a null pointer) when `s` has no space. -/
def splitAtSpace : List Char → Option (List Char × List Char)
  | [] => none
  | c :: s =>
    if c = ' ' then some ([], s)
    else (splitAtSpace s).map fun p => (c :: p.1, p.2)

/-- The function `void parseOrigin(char *buffer, vec3 &origin)` (BSPParser.cpp 17-29), on
the C string in `buffer`.  Returns the C string left in `buffer` (the first
space has been overwritten by NUL) and the new `origin`.  Each `*s = 0` after
a `strstr` that found no space is a write through a null pointer.  The unary
minus is taken on `int` (wrapping) before the conversion to `float`. -/
def parseOrigin (buffer : List Char) (origin : vec3) : Except Fault (List Char × vec3) :=
  match splitAtSpace buffer with
  | none => .error .nullDereference
  | some (first, n) =>
    let origin := { origin with x := Float32.ofInt (atoi first) }
    match splitAtSpace n with
    | none => .error .nullDereference
    | some (second, n) =>
      let origin := { origin with z := Float32.ofInt (wrapInt32 (-atoi second)) }
      let origin := { origin with y := Float32.ofInt (wrapInt32 (-atoi n)) }
      .ok (first, origin)

/-! ## The entity text scanner -/

/-- Modelled from the spec: the declaration of `Entity` (BSPParser.h) is not
part of the sources; the spec gives the width of the `className` field as
255 bytes, the size of the scanner's token buffer. -/
def classNameCapacity : Nat := 255

/-- The record `Entity`; `className` is the C string held in the `char` array. -/
structure Entity where
  className : List Char
  origin : vec3
  angle : Int
deriving DecidableEq

/-- The value-initialised record, `entity = {}`. -/
def Entity.empty : Entity := ⟨[], vec3.zero, 0⟩

/-- The type `enum KEY` (BSPParser.cpp 65-70). -/
inductive KEY where
  | CLASS_NAME
  | ORIGIN
  | ANGLE
  | UNKNOWN
deriving DecidableEq

/-- The type `enum STATE` (BSPParser.cpp 73-77). -/
inductive STATE where
  | OUTSIDE_ENTITY
  | INSIDE_ENTITY
  | INSIDE_STRING
deriving DecidableEq

/-- The size of `char buffer[255]` (BSPParser.cpp 62). -/
def tokenBufferSize : Nat := 255

/-- The variables of the scanning loop.  `token` is `buffer[0 .. bPos)`, the
bytes written since the opening quote; `entities` is the member vector. -/
structure Scanner where
  state : STATE
  key : KEY
  entity : Entity
  token : List Char
  entities : List Entity
deriving DecidableEq

/-- The call `strncpy_s(dest, src, count)` into an array of `capacity` bytes: the first
`min count (strlen src)` bytes and a NUL are stored when they fit; otherwise
the invalid-parameter handler runs. -/
def strncpy_s (capacity : Nat) (src : List Char) (count : Nat) : Except Fault (List Char) :=
  if min count src.length < capacity then .ok (src.take count) else .error .invalidParameter

/-- The classification at BSPParser.cpp 118-121: `strcmp` of the token with
the three key names. -/
def classify (buffer : List Char) : KEY :=
  if buffer = "classname".toList then KEY.CLASS_NAME
  else if buffer = "origin".toList then KEY.ORIGIN
  else if buffer = "angle".toList then KEY.ANGLE
  else KEY.UNKNOWN

/-- The value interpretation and the key classification at the closing quote
(BSPParser.cpp 105-121), on the C string `buffer` of the token: the token is
stored as the value of the active `key`, then it is classified as the key of
the next token.  `parseOrigin` has cut the buffer at its first space by the
time of the classification. -/
def interpret (key : KEY) (entity : Entity) (buffer : List Char) :
    Except Fault (KEY × Entity) :=
  match key with
  | .CLASS_NAME => do
    let name ← strncpy_s classNameCapacity buffer 255
    .ok (classify buffer, { entity with className := name })
  | .ORIGIN => do
    let (buffer, origin) ← parseOrigin buffer entity.origin
    .ok (classify buffer, { entity with origin := origin })
  | .ANGLE => .ok (classify buffer, { entity with angle := atoi buffer })
  | .UNKNOWN => .ok (classify buffer, entity)

/-- The closing quote of a token (BSPParser.cpp 102-121): `*bPos = 0`, a write
inside `buffer` only when fewer than 255 bytes were collected, then the
interpretation of the token. -/
def closeToken (sc : Scanner) : Except Fault Scanner :=
  if sc.token.length < tokenBufferSize then do
    let (key, entity) ← interpret sc.key sc.entity (cstr sc.token)
    .ok { sc with state := .INSIDE_ENTITY, key := key, entity := entity }
  else .error .bufferOverrun

/-- One iteration of the loop at BSPParser.cpp 81-129, on the byte `c = *ePos`. -/
def step (sc : Scanner) (c : Char) : Except Fault Scanner :=
  match sc.state with
  | .OUTSIDE_ENTITY =>
    if c = '{' then .ok { sc with state := .INSIDE_ENTITY, entity := Entity.empty }
    else .ok sc
  | .INSIDE_ENTITY =>
    if c = '"' then .ok { sc with token := [], state := .INSIDE_STRING }
    else if c = '}' then
      .ok { sc with state := .OUTSIDE_ENTITY, entities := sc.entities ++ [sc.entity] }
    else .ok sc
  | .INSIDE_STRING =>
    if c = '"' then closeToken sc
    else if sc.token.length < tokenBufferSize then .ok { sc with token := sc.token ++ [c] }
    else .error .bufferOverrun

/-- The loop at BSPParser.cpp 81-129 over the bytes `entityBuffer`. -/
def scan (sc : Scanner) (entityBuffer : List Char) : Except Fault Scanner :=
  entityBuffer.foldlM step sc

/-- The variables as declared at BSPParser.cpp 62-79, with the member vector
`entities` as it is when the constructor calls the function (empty).  The
local `entity` is not read before `entity = {}` assigns it. -/
def Scanner.init : Scanner :=
  ⟨.OUTSIDE_ENTITY, .UNKNOWN, Entity.empty, [], []⟩

/-- The function `BSPParser::parseEntities` (BSPParser.cpp 60-129) on the bytes of the
entity lump: the contents of the vector `entities` when the loop ends. -/
def BSPParser.parseEntities (entityBuffer : List Char) : Except Fault (List Entity) :=
  (scan Scanner.init entityBuffer).map fun sc => sc.entities

/-! ## Texts of entity lumps -/

/-- The decimal text of an integer, as `printf("%d")` writes it. -/
def decimal (n : Int) : List Char :=
  if n < 0 then '-' :: Nat.toDigits 10 n.natAbs else Nat.toDigits 10 n.natAbs

/-- A token between double quotes. -/
def quoted (t : List Char) : List Char := '"' :: (t ++ ['"'])

/-- The three key names that the scanner recognises. -/
def keyNames : List (List Char) := ["classname".toList, "origin".toList, "angle".toList]

/-- The bytes of an entity block between its braces: quoted tokens, each after
the bytes `gap` that separate it from what precedes it. -/
def blockBody : List (List Char × List Char) → List Char
  | [] => []
  | (gap, token) :: items => gap ++ (quoted token ++ blockBody items)

/-- An entity block: the opening brace, the tokens with their gaps, the bytes
`gap` after the last token, the closing brace. -/
def block (items : List (List Char × List Char)) (gap : List Char) : List Char :=
  '{' :: (blockBody items ++ (gap ++ ['}']))

/-- The bytes that may separate the tokens of a block: any but the quote and
the closing brace. -/
def IsGap (gap : List Char) : Prop := ∀ c ∈ gap, c ≠ '"' ∧ c ≠ '}'

/-- A token that the scanner reads whole: it has no quote and is shorter than
the token buffer. -/
def IsToken (token : List Char) : Prop :=
  (∀ c ∈ token, c ≠ '"') ∧ token.length < tokenBufferSize

instance (gap : List Char) : Decidable (IsGap gap) := by
  unfold IsGap; infer_instance

instance (token : List Char) : Decidable (IsToken token) := by
  unfold IsToken; infer_instance

/-- The last token written to `buffer`: `token` before the block, then the
last token of the block. -/
def lastToken (token : List Char) : List (List Char × List Char) → List Char
  | [] => token
  | (_, t) :: items => lastToken t items

/-- The closing quotes of a run of tokens, in order, from the pending key
`key` and the record `entity`. -/
def interpretAll (key : KEY) (entity : Entity) (tokens : List (List Char)) :
    Except Fault (KEY × Entity) :=
  tokens.foldlM (fun p t => interpret p.1 p.2 (cstr t)) (key, entity)

/-- The value of an `origin` key: `"X Y Z"`. -/
def originText (X Y Z : Int) : List Char :=
  decimal X ++ ' ' :: (decimal Y ++ ' ' :: decimal Z)

/-- The entity text `\x7b"classname" "s" "origin" "X Y Z" "angle" "A"\x7d`. -/
def entityText (s : List Char) (X Y Z A : Int) : List Char :=
  block [([], "classname".toList), ([' '], s), ([' '], "origin".toList),
    ([' '], originText X Y Z), ([' '], "angle".toList), ([' '], decimal A)] []

/-- The block `\x7b"classname" "s"\x7d`. -/
def classnameBlock (s : List Char) : List Char :=
  block [([], "classname".toList), ([' '], s)] []

/-- The blocks `\x7b"classname" "s1"\x7d...\x7b"classname" "sn"\x7d`, one after the other. -/
def classnameBlocks : List (List Char) → List Char
  | [] => []
  | s :: ss => classnameBlock s ++ classnameBlocks ss

/-- Modelled from the spec: `seek` of FileSystem.h, which is not part of the
sources ("seeking and fixed-size structured reads against a file handle").  A
file is the list of its bytes; after `seek(file, offset)` the next read starts
at the byte `offset`. -/
def seek (file : List Char) (offset : Nat) : List Char := file.drop offset

/-- The call `fread_s(buffer, bufferSize, elementSize, count, stream)` of the CRT, on the
bytes `stream` from the file position to the end of the file: the number of
complete elements read and the bytes stored in `buffer`.  At the end of the
file the bytes that are there are stored and counted in whole elements.  Bytes
that do not fit `bufferSize` make the invalid-parameter handler run. -/
def fread_s (bufferSize elementSize count : Nat) (stream : List Char) :
    Except Fault (Nat × List Char) :=
  if elementSize = 0 ∨ count = 0 then .ok (0, [])
  else
    let data := stream.take (elementSize * count)
    if bufferSize < data.length then .error .invalidParameter
    else .ok (data.length / elementSize, data)

/-- Modelled from the spec: a lump descriptor `{ u32 offset, u32 size }` of the
header declared in BSPParser.h, which is not part of the sources. -/
structure Lump where
  offset : Nat
  size : Nat
deriving DecidableEq

/-- Modelled from the spec: the header of a level, "`u32 version` followed by
a fixed sequence of named lump descriptors"; the fields are the ones that
BSPParser.cpp reads. -/
structure Header where
  version : Int
  entities : Lump
  planes : Lump
  miptex : Lump
  vertices : Lump
  texinfo : Lump
  faces : Lump
  lightmaps : Lump
  edges : Lump
  ledges : Lump
  models : Lump
deriving DecidableEq

/-- The size of an element type and the value that `size` bytes of a file are
when they are read into an object of the type.  The record types `Model`,
`Face`, `Plane`, `TexInfo` and `Edge` are declared in BSPParser.h, which is not
part of the sources: their layouts are parameters. -/
structure Layout (α : Type) where
  size : Nat
  size_pos : 0 < size
  decode : List Char → α

/-- The value of a byte. -/
def byteValue (c : Char) : Nat := c.toNat % 256

/-- The number that bytes hold in little-endian order. -/
def littleEndian : List Char → Nat
  | [] => 0
  | c :: cs => byteValue c + 256 * littleEndian cs

/-- The `float` with the bit pattern `bits`. -/
def Float32.ofBits (bits : Nat) : Float32 :=
  ⟨decide (bits / 2147483648 % 2 = 1), bits / 8388608 % 256, bits % 8388608⟩

/-- A `uint8_t` (the light map). -/
def uint8Layout : Layout Nat := ⟨1, by decide, littleEndian⟩

/-- An `int32_t` (the edge list): signed. -/
def int32Layout : Layout Int := ⟨4, by decide, fun bytes => wrapInt32 (littleEndian bytes)⟩

/-- A `vec3`: three `float`s, `x` first. -/
def vec3Layout : Layout vec3 :=
  ⟨12, by decide, fun bytes =>
    ⟨Float32.ofBits (littleEndian (bytes.take 4)),
     Float32.ofBits (littleEndian ((bytes.drop 4).take 4)),
     Float32.ofBits (littleEndian ((bytes.drop 8).take 4))⟩⟩

/-- The element `i` of an array of `L` that holds `bytes`. -/
def element {α : Type} (L : Layout α) (bytes : List Char) (i : Nat) : α :=
  L.decode ((bytes.drop (i * L.size)).take L.size)

/-- The `count` elements of an array of `L` that holds `bytes`. -/
def decodeArray {α : Type} (L : Layout α) (count : Nat) (bytes : List Char) : List α :=
  (List.range count).map (element L bytes)

/-- The sum `fileOffset + header.lump.offset`: an `int32_t` and a `u32`, added
in `u32`. -/
def lumpPosition (fileOffset : Int) (lump : Lump) : Nat :=
  ((fileOffset + (lump.offset : Int)) % 4294967296).toNat

/-- The body shared by `parseFaces`, `parseModels`, `parseLightMap`,
`parsePlanes`, `parseTexInfos` and `parseEdgeList`: `count = size / sizeof`,
`resize(count)`, `seek`, `fread_s` of `count` elements, and a `runtime_error`
when fewer were read.  The functions differ in the `bufferSize` they pass. -/
def loadChecked {α : Type} (L : Layout α) (file : List Char) (fileOffset : Int) (lump : Lump)
    (bufferSize : Nat) : Except Fault (List α) :=
  let offset := lumpPosition fileOffset lump
  let size := lump.size
  let count := size / L.size
  match fread_s bufferSize L.size count (seek file offset) with
  | .error fault => .error fault
  | .ok (readCount, data) =>
    if readCount ≠ count then .error .unexpectedEof
    else .ok (decodeArray L count data)

/-- The conversion of an `int32_t` to `size_t` (64 bits). -/
def toSizeT (bytes : Int) : Nat := (bytes % 18446744073709551616).toNat

/-- One `fread_s(data, request, request, 1, file)` into a vector of `count`
elements whose storage holds `memory`, with the result not looked at: the
bytes read replace the beginning of `memory`, and more bytes than the vector
has are written outside it. -/
def readBlock {α : Type} (L : Layout α) (stream : List Char) (count request : Nat)
    (memory : List Char) : Except Fault (List α) :=
  match fread_s request request 1 stream with
  | .error fault => .error fault
  | .ok (_, data) =>
    if L.size * count < data.length then .error .bufferOverrun
    else .ok (decodeArray L count (data ++ memory.drop data.length))

/-- The body shared by `parseVertices` and `parseEdges`: `count = size /
sizeof`, `resize(count)`, which value-initialises the elements (all bytes
zero), `int32_t bytes = sizeof * count` (wrapping), `seek`, and one `fread_s`
of a single element of `bytes` bytes, with `bytes` converted to `size_t`. -/
def loadUnchecked {α : Type} (L : Layout α) (file : List Char) (fileOffset : Int)
    (lump : Lump) : Except Fault (List α) :=
  let offset := lumpPosition fileOffset lump
  let size := lump.size
  let count := size / L.size
  let bytes := wrapInt32 ((L.size * count : Nat) : Int)
  readBlock L (seek file offset) count (toSizeT bytes) (List.replicate (L.size * count) NUL)

/-- The function `BSPParser::parseFaces` (BSPParser.cpp 39-51). -/
def BSPParser.parseFaces {α : Type} (Face : Layout α) (file : List Char) (fileOffset : Int)
    (header : Header) : Except Fault (List α) :=
  loadChecked Face file fileOffset header.faces header.faces.size

/-- The function `BSPParser::parseModels` (BSPParser.cpp 132-151). -/
def BSPParser.parseModels {α : Type} (Model : Layout α) (file : List Char) (fileOffset : Int)
    (header : Header) : Except Fault (List α) :=
  loadChecked Model file fileOffset header.models
    (header.models.size / Model.size * Model.size)

/-- The function `BSPParser::parseLightMap` (BSPParser.cpp 153-172). -/
def BSPParser.parseLightMap (file : List Char) (fileOffset : Int) (header : Header) :
    Except Fault (List Nat) :=
  loadChecked uint8Layout file fileOffset header.lightmaps
    (header.lightmaps.size / uint8Layout.size * uint8Layout.size)

/-- The function `BSPParser::parsePlanes` (BSPParser.cpp 174-193). -/
def BSPParser.parsePlanes {α : Type} (Plane : Layout α) (file : List Char) (fileOffset : Int)
    (header : Header) : Except Fault (List α) :=
  loadChecked Plane file fileOffset header.planes
    (header.planes.size / Plane.size * Plane.size)

/-- Modelled from the spec: the record `TexInfo` of BSPParser.h, which is not
part of the sources, "each with 2 direction vectors + offsets": the two
vectors that BSPParser.cpp names, and the bytes of the other members. -/
structure TexInfo where
  uVector : vec3
  vVector : vec3
  other : List Char
deriving DecidableEq

/-- The function `BSPParser::parseTexInfos` (BSPParser.cpp 195-221): the load, which may
throw, then `fixCoords` on both vectors of every record. -/
def BSPParser.parseTexInfos (TexInfoLayout : Layout TexInfo) (file : List Char)
    (fileOffset : Int) (header : Header) : Except Fault (List TexInfo) :=
  (loadChecked TexInfoLayout file fileOffset header.texinfo header.texinfo.size).map
    fun texInfos => texInfos.map fun texInfo =>
      { texInfo with uVector := fixCoords texInfo.uVector,
                     vVector := fixCoords texInfo.vVector }

/-- The function `BSPParser::parseVertices` (BSPParser.cpp 223-237): the load, then
`fixCoords` on every vertex. -/
def BSPParser.parseVertices (file : List Char) (fileOffset : Int) (header : Header) :
    Except Fault (List vec3) :=
  (loadUnchecked vec3Layout file fileOffset header.vertices).map
    fun vertices => vertices.map fixCoords

/-- The function `BSPParser::parseEdgeList` (BSPParser.cpp 239-252). -/
def BSPParser.parseEdgeList (file : List Char) (fileOffset : Int) (header : Header) :
    Except Fault (List Int) :=
  loadChecked int32Layout file fileOffset header.ledges header.ledges.size

/-- The function `BSPParser::parseEdges` (BSPParser.cpp 254-264). -/
def BSPParser.parseEdges {α : Type} (Edge : Layout α) (file : List Char) (fileOffset : Int)
    (header : Header) : Except Fault (List α) :=
  loadUnchecked Edge file fileOffset header.edges

/-- The file has the `size / elementSize` whole elements of the lump, from the
position of the lump on. -/
def HoldsElements (file : List Char) (fileOffset : Int) (lump : Lump) (elementSize : Nat) :
    Prop :=
  lumpPosition fileOffset lump + lump.size / elementSize * elementSize ≤ file.length

instance (file : List Char) (fileOffset : Int) (lump : Lump) (elementSize : Nat) :
    Decidable (HoldsElements file fileOffset lump elementSize) := by
  unfold HoldsElements; infer_instance

/-- A header of version 29 all of whose lumps are empty. -/
def Header.empty : Header :=
  ⟨29, ⟨0, 0⟩, ⟨0, 0⟩, ⟨0, 0⟩, ⟨0, 0⟩, ⟨0, 0⟩, ⟨0, 0⟩, ⟨0, 0⟩, ⟨0, 0⟩, ⟨0, 0⟩, ⟨0, 0⟩⟩

/-- The bytes with the given values. -/
def bytes (values : List Nat) : List Char := values.map Char.ofNat

/-- The layout of `TexInfo` in the Quake level format, 40 bytes: `vec3
uVector`, `float uOffset`, `vec3 vVector`, `float vOffset`, `u32 textureID`,
`u32 animated`.  An example of a layout. -/
def quakeTexInfoLayout : Layout TexInfo :=
  ⟨40, by decide, fun b =>
    ⟨vec3Layout.decode (b.take 12), vec3Layout.decode ((b.drop 16).take 12),
      (b.drop 12).take 4 ++ b.drop 28⟩⟩

/-- The function `strcmp` on the C strings in two buffers, the end of a buffer
counting as the terminating NUL: `0` when the strings are equal, else the sign
of the first difference. -/
def strcmp : List Char → List Char → Int
  | [], [] => 0
  | [], d :: _ => if d = NUL then 0 else -1
  | c :: _, [] => if c = NUL then 0 else 1
  | c :: a, d :: b =>
    if c = d then (if c = NUL then 0 else strcmp a b)
    else if byteValue c < byteValue d then -1 else 1

/-- The function `strncmp`: `strcmp` on at most `n` bytes of each string. -/
def strncmp (a b : List Char) (n : Nat) : Int := strcmp (a.take n) (b.take n)

/-- The function `BSPParser::findEntityByName` (BSPParser.cpp 266-273) on the member vector
`entities`: the first entity that `strcmp` accepts, or the `runtime_error`. -/
def BSPParser.findEntityByName : List Entity → List Char → Except Fault Entity
  | [], _ => .error .notFound
  | entity :: entities, name =>
    if strcmp name entity.className = 0 then .ok entity
    else BSPParser.findEntityByName entities name

/-- Modelled from the spec: `readStruct` of FileSystem.h, which is not part of
the sources ("fixed-size structured reads against a file handle"): the
`sizeof` bytes at the file position, as an object of the type; a file that
ends before them gives the truncation error. -/
def readStruct {α : Type} (L : Layout α) (stream : List Char) : Except Fault α :=
  if stream.length < L.size then .error .unexpectedEof
  else .ok (L.decode (stream.take L.size))

/-- The constant `HEADER_LENGTH` (PAKParser.cpp 4). -/
def HEADER_LENGTH : Nat := 4

/-- The constant `FILE_ENTRY_LENGTH` (PAKParser.cpp 5). -/
def FILE_ENTRY_LENGTH : Nat := 64

/-- Modelled from the spec: the header of an archive, declared in PAKParser.h,
which is not part of the sources: "4-byte magic, `u32 directoryOffset`, `u32
directorySize`", under the member names that PAKParser.cpp uses. -/
structure PAKHeader where
  id : List Char
  offset : Nat
  size : Nat
deriving DecidableEq

/-- Modelled from the spec: the layout of `PAKHeader`, 12 bytes, little-endian. -/
def PAKHeader.layout : Layout PAKHeader :=
  ⟨12, by decide, fun b =>
    ⟨b.take 4, littleEndian ((b.drop 4).take 4), littleEndian ((b.drop 8).take 4)⟩⟩

/-- Modelled from the spec: a directory entry, declared in PAKParser.h, which
is not part of the sources: "bounded name string + `u32 offset` + `u32 size`",
64 bytes.  The member `name` holds the bytes of the name field. -/
structure PAKFileEntry where
  name : List Char
  offset : Nat
  size : Nat
deriving DecidableEq

/-- The four bytes of a `u32`, little-endian. -/
def uint32Bytes (n : Nat) : List Char :=
  [Char.ofNat (n % 256), Char.ofNat (n / 256 % 256), Char.ofNat (n / 65536 % 256),
    Char.ofNat (n / 16777216 % 256)]

/-- The bytes of a directory entry from its member `name` to its end: the name
field, then `offset` and `size`.  A `strcmp` with `entry.name` that finds no
NUL in the name field reads on into them. -/
def PAKFileEntry.bytesFromName (entry : PAKFileEntry) : List Char :=
  entry.name ++ (uint32Bytes entry.offset ++ uint32Bytes entry.size)

/-- The call `strcmp(s, p)` for a C string `s` with its terminator (the end of `s`
counts as its NUL) and a pointer `p` into an object whose bytes from `p` to
the end of the object are `object`: the comparison goes on until the bytes
differ or are both NUL, and one that is not decided inside the object reads
outside it. -/
def strcmpInObject : List Char → List Char → Except Fault Int
  | _, [] => .error .readOverrun
  | [], d :: _ => .ok (if d = NUL then 0 else -1)
  | c :: s, d :: object =>
    if c = d then (if c = NUL then .ok 0 else strcmpInObject s object)
    else .ok (if byteValue c < byteValue d then -1 else 1)

/-- Modelled from the spec: the layout of a directory entry, "64 bytes": the
name field, then the two numbers, little-endian. -/
def PAKFileEntry.layout : Layout PAKFileEntry :=
  ⟨64, by decide, fun b =>
    ⟨b.take 56, littleEndian ((b.drop 56).take 4), littleEndian ((b.drop 60).take 4)⟩⟩

/-- The function `PAKParser::parseHeader` (PAKParser.cpp 7-12) on a file just opened. -/
def PAKParser.parseHeader (file : List Char) : Except Fault PAKHeader :=
  match readStruct PAKHeader.layout file with
  | .error fault => .error fault
  | .ok header =>
    if strncmp "PACK".toList header.id HEADER_LENGTH ≠ 0 then .error .notPak
    else .ok header

/-- The function `PAKParser::parseEntries` (PAKParser.cpp 14-30); `Entry` gives
`sizeof(PAKFileEntry)`. -/
def PAKParser.parseEntries (Entry : Layout PAKFileEntry) (file : List Char)
    (header : PAKHeader) : Except Fault (List PAKFileEntry) :=
  let count := header.size / FILE_ENTRY_LENGTH
  match fread_s (Entry.size * count) Entry.size count (seek file header.offset) with
  | .error fault => .error fault
  | .ok (read, data) =>
    if read ≠ count then .error .unexpectedEof
    else .ok (decodeArray Entry count data)

/-- The loop of `PAKParser::loadMap` (PAKParser.cpp 51-56) over the entries
that are left; `newBSPParser offset` is `new BSPParser(file, entry.offset)`.
The second argument of `strcmp` is the array `entry.name` inside the copy
`entry` of the directory entry. -/
def PAKParser.loadMapFrom {β : Type} (newBSPParser : Nat → Except Fault β)
    (entryName : List Char) : List PAKFileEntry → Except Fault β
  | [] => .error .notFound
  | entry :: entries =>
    match strcmpInObject entryName entry.bytesFromName with
    | .error fault => .error fault
    | .ok order =>
      if order = 0 then newBSPParser entry.offset
      else PAKParser.loadMapFrom newBSPParser entryName entries

/-- The function `PAKParser::loadMap` (PAKParser.cpp 49-57) on the member vector
`entries`. -/
def PAKParser.loadMap {β : Type} (newBSPParser : Nat → Except Fault β)
    (entries : List PAKFileEntry) (name : List Char) : Except Fault β :=
  let entryName := "maps/".toList ++ name ++ ".bsp".toList
  PAKParser.loadMapFrom newBSPParser entryName entries

/-- The function `BSPParser::parseHeader` (BSPParser.cpp 31-37); `H` is the layout of the
header structure.  The offset of a level is a position of the file. -/
def BSPParser.parseHeader (H : Layout Header) (file : List Char) (fileOffset : Int) :
    Except Fault Header :=
  match readStruct H (seek file fileOffset.toNat) with
  | .error fault => .error fault
  | .ok header =>
    if header.version ≠ 29 then .error .badVersion
    else .ok header

/-- The beginning of `BSPParser::parseEntities` (BSPParser.cpp 54-59): `new
char[size]`, whose bytes `memory` are not initialised, and one `fread_s` of
`size` bytes whose result is not looked at.  The bytes read replace the
beginning of `memory`. -/
def BSPParser.readEntityBuffer (file : List Char) (fileOffset : Int) (header : Header)
    (memory : List Char) : Except Fault (List Char) :=
  let offset := lumpPosition fileOffset header.entities
  let size := header.entities.size
  match fread_s size size 1 (seek file offset) with
  | .error fault => .error fault
  | .ok (_, data) => .ok (data ++ (memory.take size).drop data.length)

/-- The whole of `BSPParser::parseEntities` (BSPParser.cpp 53-130): the read
of the lump, then the scanning loop over its `size` bytes. -/
def BSPParser.parseEntityLump (file : List Char) (fileOffset : Int) (header : Header)
    (memory : List Char) : Except Fault (List Entity) :=
  match BSPParser.readEntityBuffer file fileOffset header memory with
  | .error fault => .error fault
  | .ok entityBuffer => BSPParser.parseEntities entityBuffer

/-- The declarations that BSPParser.cpp takes from headers that are not part
of the sources: the layouts of the header and of the record types, and the
constructor `Atlas(file, offset, palette)` for the palette of the caller. -/
structure Declarations (Model Face Plane Edge Atlas : Type) where
  header : Layout Header
  model : Layout Model
  face : Layout Face
  plane : Layout Plane
  edge : Layout Edge
  texInfo : Layout TexInfo
  atlas : List Char → Nat → Except Fault Atlas

/-- The members of a `BSPParser` once its constructor has returned. -/
structure BSPParser (Model Face Plane Edge Atlas : Type) where
  header : Header
  atlas : Atlas
  models : List Model
  entities : List Entity
  vertices : List vec3
  edgeList : List Int
  edges : List Edge
  faces : List Face
  lightMap : List Nat
  planes : List Plane
  texInfos : List TexInfo

/-- The constructor `BSPParser::BSPParser` (BSPParser.cpp 275-293): the steps
in their order, the first `runtime_error` ending the construction.  The bytes
`memory` are what the buffer of the entity text holds when it is allocated. -/
def BSPParser.new {Model Face Plane Edge Atlas : Type}
    (D : Declarations Model Face Plane Edge Atlas) (file : List Char) (offset : Int)
    (memory : List Char) : Except Fault (BSPParser Model Face Plane Edge Atlas) := do
  let header ← BSPParser.parseHeader D.header file offset
  let atlas ← D.atlas file (lumpPosition offset header.miptex)
  let models ← BSPParser.parseModels D.model file offset header
  let entities ← BSPParser.parseEntityLump file offset header memory
  let vertices ← BSPParser.parseVertices file offset header
  let edgeList ← BSPParser.parseEdgeList file offset header
  let edges ← BSPParser.parseEdges D.edge file offset header
  let faces ← BSPParser.parseFaces D.face file offset header
  let lightMap ← BSPParser.parseLightMap file offset header
  let planes ← BSPParser.parsePlanes D.plane file offset header
  let texInfos ← BSPParser.parseTexInfos D.texInfo file offset header
  .ok ⟨header, atlas, models, entities, vertices, edgeList, edges, faces, lightMap, planes,
    texInfos⟩

/-! ## Notions of the claims about files, blocks and vectors -/

/-- The layout of the header of a Quake level, 124 bytes: the version and
fifteen lump descriptors of two `u32` each, in the order entities, planes,
miptex, vertices, visilist, nodes, texinfo, faces, lightmaps, clipnodes,
leaves, lface, edges, ledges, models.  An example of a layout. -/
def quakeHeaderLayout : Layout Header :=
  ⟨124, by decide, fun b =>
    let word := fun (i : Nat) => littleEndian ((b.drop (4 * i)).take 4)
    let lump := fun (i : Nat) => Lump.mk (word (1 + 2 * i)) (word (2 + 2 * i))
    ⟨(word 0 : Nat), lump 0, lump 1, lump 2, lump 3, lump 6, lump 7, lump 8, lump 12, lump 13,
      lump 14⟩⟩

/-- The layout of an edge in the Quake level format, 4 bytes: two vertex
indices of 16 bits.  An example of a layout. -/
def quakeEdgeLayout : Layout (Nat × Nat) :=
  ⟨4, by decide, fun b => (littleEndian (b.take 2), littleEndian ((b.drop 2).take 2))⟩

/-- The declarations of an example: the Quake layouts where the file has them,
bytes for the other records, and an atlas that is its offset. -/
def quakeDeclarations : Declarations Nat Nat Nat (Nat × Nat) Nat :=
  ⟨quakeHeaderLayout, uint8Layout, uint8Layout, uint8Layout, quakeEdgeLayout,
    quakeTexInfoLayout, fun _ offset => .ok offset⟩

/-- In the words of the spec: the `count` elements of an array in a file,
element `i` decoded from the `L.size` bytes at the file position
`position + i * L.size`. -/
def lumpElements {α : Type} (L : Layout α) (file : List Char) (position count : Nat) :
    List α :=
  (List.range count).map fun i => L.decode ((file.drop (position + i * L.size)).take L.size)

/-- In the words of the spec: the file contains the bytes
`[fileOffset + offset, fileOffset + offset + size)` of the lump, at a position
that the 32 bits of the sum `fileOffset + offset` hold. -/
def ContainsLump (file : List Char) (fileOffset : Int) (lump : Lump) : Prop :=
  0 ≤ fileOffset + lump.offset ∧ fileOffset + lump.offset < 4294967296 ∧
    fileOffset + lump.offset + lump.size ≤ file.length

instance (file : List Char) (fileOffset : Int) (lump : Lump) :
    Decidable (ContainsLump file fileOffset lump) := by
  unfold ContainsLump; infer_instance

/-- In the words of the spec: no closing brace occurs outside a quoted string
in `text`, read from a place inside a quoted string (`inString`) or outside
one. -/
def bracesQuoted : Bool → List Char → Bool
  | _, [] => true
  | true, c :: text => if c = '"' then bracesQuoted false text else bracesQuoted true text
  | false, c :: text =>
    if c = '"' then bracesQuoted true text
    else if c = '}' then false
    else bracesQuoted false text

/-- Two `float`s that are the same number: the same bits, or two zeros, whose
signs the comparison `==` does not tell apart. -/
def Float32.sameNumber (a b : Float32) : Prop :=
  a = b ∨ (a.exponent = 0 ∧ a.mantissa = 0 ∧ b.exponent = 0 ∧ b.mantissa = 0)

instance (a b : Float32) : Decidable (Float32.sameNumber a b) := by
  unfold Float32.sameNumber; infer_instance

/-! # Properties -/

/-! ## Numbers and their texts -/

theorem leadingBit_spec (fuel : Nat) : ∀ m : Nat, 0 < m → m < 2 ^ fuel →
    2 ^ Float32.leadingBit fuel m ≤ m ∧ m < 2 ^ (Float32.leadingBit fuel m + 1) := by
  induction fuel with
  | zero => intro m h0 h1; simp at h1; omega
  | succ fuel ih =>
    intro m h0 h1
    unfold Float32.leadingBit
    by_cases h2 : m < 2
    · simp only [h2, if_true]; omega
    · simp only [h2, if_false]
      have hd : m / 2 < 2 ^ fuel := by
        rw [Nat.div_lt_iff_lt_mul (by decide)]; rw [pow_succ] at h1; exact h1
      obtain ⟨ha, hb⟩ := ih (m / 2) (by omega) hd
      rw [pow_succ]
      constructor
      · have := Nat.div_mul_le_self m 2
        nlinarith
      · rw [pow_succ] at *
        omega

theorem toInt?_exact (sign : Bool) (m k : Nat) (hk : k ≤ 23) (ha : 2 ^ k ≤ m) :
    Float32.toInt? ⟨sign, 127 + k, m * 2 ^ (23 - k) - 2 ^ 23⟩
      = some (if sign then -(m : Int) else (m : Int)) := by
  have hc : 2 ^ 23 ≤ m * 2 ^ (23 - k) := by
    calc 2 ^ 23 = 2 ^ k * 2 ^ (23 - k) := by rw [← pow_add]; congr 1; omega
      _ ≤ m * 2 ^ (23 - k) := Nat.mul_le_mul_right _ ha
  have hs : 2 ^ 23 + (m * 2 ^ (23 - k) - 2 ^ 23) = m * 2 ^ (23 - k) := by omega
  have hpos : 0 < 2 ^ (23 - k) := by positivity
  unfold Float32.toInt?
  simp only [hs]
  rw [if_neg (by omega), if_neg (by omega)]
  by_cases h23 : k = 23
  · subst h23; simp
  · rw [if_neg (by omega), show 150 - (127 + k) = 23 - k by omega, if_pos (Nat.mul_mod_left _ _),
      Nat.mul_div_cancel _ hpos]
    rfl

theorem toInt?_ofMagnitude (sign : Bool) (m : Nat) (h0 : 0 < m) (h : m ≤ 2 ^ 24) :
    (Float32.ofMagnitude sign m).toInt? = some (if sign then -(m : Int) else (m : Int)) := by
  obtain ⟨ha, hb⟩ := leadingBit_spec 32 m h0 (by norm_num at h ⊢; omega)
  unfold Float32.ofMagnitude
  rw [if_neg (by omega)]
  by_cases hk : Float32.leadingBit 32 m ≤ 23
  · simp only [hk, if_true]
    exact toInt?_exact sign m _ hk ha
  · have h24 : 2 ^ 24 ≤ 2 ^ Float32.leadingBit 32 m := Nat.pow_le_pow_right (by decide) (by omega)
    have hm : m = 16777216 := by norm_num at h h24; omega
    subst hm
    cases sign <;> rfl

theorem toInt?_ofInt (n : Int) (h : n.natAbs ≤ 2 ^ 24) :
    (Float32.ofInt n).toInt? = some n := by
  unfold Float32.ofInt
  by_cases h0 : n = 0
  · subst h0; rfl
  · rw [toInt?_ofMagnitude _ _ (by omega) h]
    by_cases hn : n < 0
    · simp only [hn, decide_True, if_true]
      congr 1; omega
    · simp only [hn, decide_False]
      congr 1; simp only [Bool.false_eq_true, if_false]; omega

theorem digitChar_toNat (m : Nat) (h : m < 10) : (Nat.digitChar m).toNat = 48 + m := by
  interval_cases m <;> rfl

theorem digitsValue_append (ds : List Char) (c : Char) :
    digitsValue (ds ++ [c]) = digitsValue ds * 10 + (c.toNat - 48) := by
  simp [digitsValue, List.foldl_append]

/-- The digits that `Nat.toDigitsCore` puts in front of its accumulator: a run
of digit characters whose value is the number. -/
theorem toDigitsCore_run : ∀ (fuel k : Nat) (rest : List Char), k < fuel →
    ∃ run : List Char, (∀ c ∈ run, isdigit c = true) ∧ digitsValue run = k ∧
      Nat.toDigitsCore 10 fuel k rest = run ++ rest := by
  intro fuel
  induction fuel with
  | zero => intro k rest hk; omega
  | succ fuel ih =>
    intro k rest hk
    have hlast : (Nat.digitChar (k % 10)).toNat = 48 + k % 10 :=
      digitChar_toNat (k % 10) (Nat.mod_lt _ (by decide))
    have hd : isdigit (Nat.digitChar (k % 10)) = true := by
      simp [isdigit, hlast]; omega
    simp only [Nat.toDigitsCore]
    by_cases hq : k / 10 = 0
    · refine ⟨[Nat.digitChar (k % 10)], by simpa using hd, ?_, by simp [hq]⟩
      simp [digitsValue, hlast]
      omega
    · obtain ⟨run, hrun, hval, heq⟩ := ih (k / 10) (Nat.digitChar (k % 10) :: rest) (by omega)
      refine ⟨run ++ [Nat.digitChar (k % 10)], ?_, ?_, by simp [hq, heq]⟩
      · intro c hc
        rcases List.mem_append.mp hc with hc | hc
        · exact hrun c hc
        · simp at hc; rw [hc]; exact hd
      · rw [digitsValue_append, hval, hlast]
        omega

theorem toDigits_isdigit (n : Nat) : ∀ c ∈ Nat.toDigits 10 n, isdigit c = true := by
  obtain ⟨run, hrun, _, heq⟩ := toDigitsCore_run (n + 1) n [] (by omega)
  simp only [Nat.toDigits, heq, List.append_nil]
  exact hrun

theorem digitsValue_toDigits (n : Nat) : digitsValue (Nat.toDigits 10 n) = n := by
  obtain ⟨run, _, hval, heq⟩ := toDigitsCore_run (n + 1) n [] (by omega)
  simp only [Nat.toDigits, heq, List.append_nil]
  exact hval

theorem toDigits_length (n : Nat) (h : n < 10 ^ 10) : (Nat.toDigits 10 n).length ≤ 10 :=
  Nat.toDigitsCore_length 10 (by decide) (n + 1) n 10 h (by decide)

theorem takeWhile_isdigit (ds : List Char) (h : ∀ c ∈ ds, isdigit c = true) :
    ds.takeWhile isdigit = ds := by
  rw [List.takeWhile_eq_self_iff]; exact h

theorem isdigit_facts (c : Char) (h : isdigit c = true) :
    isspace c = false ∧ c ≠ '-' ∧ c ≠ '+' ∧ c ≠ ' ' ∧ c ≠ '"' ∧ c ≠ NUL := by
  simp only [isdigit, Bool.and_eq_true, decide_eq_true_eq] at h
  refine ⟨?_, ?_, ?_, ?_, ?_, ?_⟩
  · simp only [isspace, Bool.or_eq_false_iff, Bool.and_eq_false_iff, decide_eq_false_iff_not]
    constructor
    · rw [beq_eq_false_iff_ne]; rintro rfl; revert h; decide
    · right; omega
  all_goals (rintro rfl; revert h; decide)

theorem atoi_digits (ds : List Char) (h : ∀ c ∈ ds, isdigit c = true) :
    atoi ds = clampInt32 (digitsValue ds) := by
  cases ds with
  | nil => rfl
  | cons c r =>
    obtain ⟨h1, h2, h3, _⟩ := isdigit_facts c (h c (List.mem_cons_self _ _))
    unfold atoi
    rw [List.dropWhile_cons_of_neg (by simp [h1])]
    simp only [h2, h3, if_false]
    rw [takeWhile_isdigit _ h]

theorem atoi_minus_digits (ds : List Char) (h : ∀ c ∈ ds, isdigit c = true) :
    atoi ('-' :: ds) = clampInt32 (-(digitsValue ds : Int)) := by
  unfold atoi
  rw [List.dropWhile_cons_of_neg (by decide)]
  simp only [if_true]
  rw [takeWhile_isdigit _ h]

theorem atoi_decimal (n : Int) (h1 : -2147483648 ≤ n) (h2 : n ≤ 2147483647) :
    atoi (decimal n) = n := by
  unfold decimal
  by_cases hn : n < 0
  · rw [if_pos hn, atoi_minus_digits _ (toDigits_isdigit _), digitsValue_toDigits]
    unfold clampInt32; split_ifs <;> omega
  · rw [if_neg hn, atoi_digits _ (toDigits_isdigit _), digitsValue_toDigits]
    unfold clampInt32; split_ifs <;> omega

/-- Every character of a decimal text is a digit or the minus sign. -/
theorem decimal_chars (n : Int) : ∀ c ∈ decimal n, isdigit c = true ∨ c = '-' := by
  intro c hc
  unfold decimal at hc
  split_ifs at hc
  · rcases List.mem_cons.mp hc with rfl | hc
    · right; rfl
    · left; exact toDigits_isdigit _ c hc
  · left; exact toDigits_isdigit _ c hc

theorem decimal_length (n : Int) (h1 : -2147483648 ≤ n) (h2 : n ≤ 2147483647) :
    (decimal n).length ≤ 11 := by
  have := toDigits_length n.natAbs (by norm_num; omega)
  unfold decimal
  split_ifs <;> simp <;> omega

/-! ## The scanning loop -/

theorem scan_nil (sc : Scanner) : scan sc [] = .ok sc := rfl

theorem scan_cons (sc : Scanner) (c : Char) (l : List Char) :
    scan sc (c :: l) = step sc c >>= fun sc => scan sc l := by
  simp [scan, List.foldlM_cons]

theorem scan_append (sc : Scanner) (a b : List Char) :
    scan sc (a ++ b) = scan sc a >>= fun sc => scan sc b := by
  simp [scan, List.foldlM_append]

theorem ok_bind {α β : Type} (a : α) (f : α → Except Fault β) :
    (Except.ok a >>= f) = f a := rfl

/-- Outside an entity every byte but the opening brace is skipped. -/
theorem scan_outside (sc : Scanner) (g : List Char) (hs : sc.state = .OUTSIDE_ENTITY)
    (hg : ∀ c ∈ g, c ≠ '{') : scan sc g = .ok sc := by
  induction g with
  | nil => rfl
  | cons c g ih =>
    have hc : c ≠ '{' := hg c (List.mem_cons_self _ _)
    rw [scan_cons]
    simp only [step, hs, hc, if_false, ok_bind]
    exact ih fun d hd => hg d (List.mem_cons_of_mem _ hd)

/-- Inside an entity and outside a string every byte but the quote and the
closing brace is skipped. -/
theorem scan_gap (sc : Scanner) (g : List Char) (hs : sc.state = .INSIDE_ENTITY)
    (hg : ∀ c ∈ g, c ≠ '"' ∧ c ≠ '}') : scan sc g = .ok sc := by
  induction g with
  | nil => rfl
  | cons c g ih =>
    obtain ⟨h1, h2⟩ := hg c (List.mem_cons_self _ _)
    rw [scan_cons]
    simp only [step, hs, h1, h2, if_false, ok_bind]
    exact ih fun d hd => hg d (List.mem_cons_of_mem _ hd)

/-- Inside a string the bytes up to the closing quote are appended to the
token, as long as they fit the token buffer. -/
theorem scan_string (t : List Char) (ht : ∀ c ∈ t, c ≠ '"') : ∀ (sc : Scanner),
    sc.state = .INSIDE_STRING → sc.token.length + t.length ≤ tokenBufferSize →
    scan sc t = .ok { sc with token := sc.token ++ t } := by
  induction t with
  | nil => intro sc _ _; simp [scan_nil]
  | cons c t ih =>
    intro sc hs hl
    have hc : c ≠ '"' := ht c (List.mem_cons_self _ _)
    have hlt : sc.token.length < tokenBufferSize := by simp at hl; omega
    rw [scan_cons]
    simp only [step, hs, hc, hlt, if_false, if_true, ok_bind]
    rw [ih (fun d hd => ht d (List.mem_cons_of_mem _ hd)) _ rfl (by simp at hl ⊢; omega)]
    simp [hs]

/-- A quoted token: the scanner collects it and closes it. -/
theorem scan_quoted (sc : Scanner) (t rest : List Char) (hs : sc.state = .INSIDE_ENTITY)
    (ht : ∀ c ∈ t, c ≠ '"') (hl : t.length ≤ tokenBufferSize) :
    scan sc (quoted t ++ rest) =
      closeToken { sc with token := t, state := .INSIDE_STRING } >>= fun sc => scan sc rest := by
  unfold quoted
  rw [List.cons_append, scan_cons]
  simp only [step, hs, if_true, ok_bind]
  rw [List.append_assoc, scan_append,
    scan_string t ht _ rfl (by simpa using hl)]
  simp only [ok_bind, List.nil_append, List.singleton_append, scan_cons, step, if_true]

theorem interpretAll_nil (k : KEY) (e : Entity) : interpretAll k e [] = .ok (k, e) := rfl

theorem interpretAll_cons (k : KEY) (e : Entity) (t : List Char) (ts : List (List Char)) :
    interpretAll k e (t :: ts) =
      interpret k e (cstr t) >>= fun p => interpretAll p.1 p.2 ts := by
  simp [interpretAll, List.foldlM_cons]

/-- The scanner on the tokens of a block: the closing quotes, one by one. -/
theorem scan_blockBody (items : List (List Char × List Char)) :
    ∀ (k : KEY) (e : Entity) (tok : List Char) (es : List Entity) (rest : List Char),
    (∀ it ∈ items, IsGap it.1 ∧ IsToken it.2) →
    scan ⟨.INSIDE_ENTITY, k, e, tok, es⟩ (blockBody items ++ rest) =
      match interpretAll k e (items.map Prod.snd) with
      | .ok (k', e') => scan ⟨.INSIDE_ENTITY, k', e', lastToken tok items, es⟩ rest
      | .error f => .error f := by
  induction items with
  | nil => intro k e tok es rest _; rfl
  | cons it items ih =>
    intro k e tok es rest h
    obtain ⟨g, t⟩ := it
    obtain ⟨hg, ht, hl⟩ := h (g, t) (List.mem_cons_self _ _)
    have hrest := fun it hit => h it (List.mem_cons_of_mem _ hit)
    simp only [blockBody, List.append_assoc, List.map_cons, interpretAll_cons, lastToken]
    rw [scan_append, scan_gap _ g rfl hg, ok_bind, scan_quoted _ t _ rfl ht (Nat.le_of_lt hl)]
    simp only [closeToken, hl, if_true]
    cases hi : interpret k e (cstr t) with
    | error f => rfl
    | ok p =>
      obtain ⟨k1, e1⟩ := p
      exact ih k1 e1 t es rest hrest

/-- The scanner on a whole block, from outside an entity: the record built
from the value-initialised one is appended. -/
theorem scan_block (items : List (List Char × List Char)) (gap : List Char)
    (k : KEY) (e : Entity) (tok : List Char) (es : List Entity) (rest : List Char)
    (h : ∀ it ∈ items, IsGap it.1 ∧ IsToken it.2) (hg : IsGap gap) :
    scan ⟨.OUTSIDE_ENTITY, k, e, tok, es⟩ (block items gap ++ rest) =
      match interpretAll k Entity.empty (items.map Prod.snd) with
      | .ok (k', e') => scan ⟨.OUTSIDE_ENTITY, k', e', lastToken tok items, es ++ [e']⟩ rest
      | .error f => .error f := by
  unfold block
  rw [List.cons_append, scan_cons]
  simp only [step, if_true, ok_bind, List.append_assoc]
  rw [scan_blockBody items _ _ _ _ _ h]
  cases interpretAll k Entity.empty (items.map Prod.snd) with
  | error f => rfl
  | ok p =>
    obtain ⟨k1, e1⟩ := p
    simp only
    rw [scan_append, scan_gap _ gap rfl hg, ok_bind, List.singleton_append, scan_cons]
    simp [step, ok_bind]

/-- A buffer that is one block. -/
theorem parseEntities_block (items : List (List Char × List Char)) (gap : List Char)
    (h : ∀ it ∈ items, IsGap it.1 ∧ IsToken it.2) (hg : IsGap gap) :
    BSPParser.parseEntities (block items gap) =
      (interpretAll .UNKNOWN Entity.empty (items.map Prod.snd)).map fun p => [p.2] := by
  have := scan_block items gap .UNKNOWN Entity.empty [] [] [] h hg
  rw [List.append_nil] at this
  unfold BSPParser.parseEntities Scanner.init
  rw [this]
  cases interpretAll .UNKNOWN Entity.empty (items.map Prod.snd) with
  | error f => rfl
  | ok p => rfl

/-! ## Tokens -/

theorem cstr_eq_self (t : List Char) (h : ∀ c ∈ t, c ≠ NUL) : cstr t = t := by
  unfold cstr
  rw [List.takeWhile_eq_self_iff]
  intro c hc
  simpa using h c hc

theorem cstr_length_le (t : List Char) : (cstr t).length ≤ t.length := by
  unfold cstr
  exact (List.takeWhile_sublist _).length_le

theorem classify_of_not_mem (t : List Char) (h : t ∉ keyNames) : classify t = .UNKNOWN := by
  simp only [keyNames, List.mem_cons, List.mem_singleton, List.not_mem_nil, or_false,
    not_or] at h
  unfold classify
  rw [if_neg h.1, if_neg h.2.1, if_neg h.2.2]

theorem interpret_className (e : Entity) (b : List Char) (h : b.length < 255) :
    interpret .CLASS_NAME e b = .ok (classify b, { e with className := b }) := by
  have h1 : min 255 b.length < classNameCapacity := by
    unfold classNameCapacity; omega
  simp only [interpret, strncpy_s, h1, if_true]
  rw [List.take_of_length_le (by omega)]
  rfl

theorem splitAtSpace_append (a b : List Char) (h : ∀ c ∈ a, c ≠ ' ') :
    splitAtSpace (a ++ ' ' :: b) = some (a, b) := by
  induction a with
  | nil => simp [splitAtSpace]
  | cons c a ih =>
    have hc : c ≠ ' ' := h c (List.mem_cons_self _ _)
    simp [splitAtSpace, hc, ih fun d hd => h d (List.mem_cons_of_mem _ hd)]

theorem decimal_ne (n : Int) : ∀ c ∈ decimal n, c ≠ ' ' ∧ c ≠ '"' ∧ c ≠ NUL := by
  intro c hc
  rcases decimal_chars n c hc with h | rfl
  · obtain ⟨_, _, _, h4, h5, h6⟩ := isdigit_facts c h
    exact ⟨h4, h5, h6⟩
  · decide

theorem decimal_not_keyName (n : Int) : decimal n ∉ keyNames := by
  intro h
  simp only [keyNames, List.mem_cons, List.mem_singleton, List.not_mem_nil, or_false] at h
  have key : ∀ c : Char, c ∈ decimal n → ¬ (isdigit c = false ∧ c ≠ '-') := by
    intro c hc hn
    rcases decimal_chars n c hc with h1 | h1
    · rw [h1] at hn; exact absurd hn.1 (by decide)
    · exact hn.2 h1
  rcases h with h | h | h
  · exact key 'c' (by rw [h]; decide) (by decide)
  · exact key 'o' (by rw [h]; decide) (by decide)
  · exact key 'a' (by rw [h]; decide) (by decide)

/-- The three components that `parseOrigin` reads from `"X Y Z"`. -/
theorem parseOrigin_originText (X Y Z : Int) (o : vec3)
    (hX : -2147483648 ≤ X ∧ X ≤ 2147483647) (hY : -2147483648 ≤ Y ∧ Y ≤ 2147483647)
    (hZ : -2147483648 ≤ Z ∧ Z ≤ 2147483647) :
    parseOrigin (originText X Y Z) o =
      .ok (decimal X, ⟨Float32.ofInt X, Float32.ofInt (wrapInt32 (-Z)),
        Float32.ofInt (wrapInt32 (-Y))⟩) := by
  unfold parseOrigin originText
  rw [splitAtSpace_append _ _ fun c hc => (decimal_ne X c hc).1]
  simp only
  rw [splitAtSpace_append _ _ fun c hc => (decimal_ne Y c hc).1]
  simp only [atoi_decimal X hX.1 hX.2, atoi_decimal Y hY.1 hY.2, atoi_decimal Z hZ.1 hZ.2]

theorem wrapInt32_of_range (z : Int) (h1 : -2147483648 ≤ z) (h2 : z ≤ 2147483647) :
    wrapInt32 z = z := by
  unfold wrapInt32; omega

theorem originText_ne (X Y Z : Int) : ∀ c ∈ originText X Y Z, c ≠ '"' ∧ c ≠ NUL := by
  intro c hc
  simp only [originText, List.mem_append, List.mem_cons] at hc
  rcases hc with hc | rfl | hc | rfl | hc
  · exact (decimal_ne X c hc).2
  · decide
  · exact (decimal_ne Y c hc).2
  · decide
  · exact (decimal_ne Z c hc).2

theorem originText_length (X Y Z : Int)
    (hX : -2147483648 ≤ X ∧ X ≤ 2147483647) (hY : -2147483648 ≤ Y ∧ Y ≤ 2147483647)
    (hZ : -2147483648 ≤ Z ∧ Z ≤ 2147483647) : (originText X Y Z).length ≤ 35 := by
  have h1 := decimal_length X hX.1 hX.2
  have h2 := decimal_length Y hY.1 hY.2
  have h3 := decimal_length Z hZ.1 hZ.2
  simp only [originText, List.length_append, List.length_cons]
  omega

/-! ## Claims about the entity text -/

theorem interpretAll_entityText (s : List Char) (X Y Z A : Int)
    (hlen : s.length < 255) (hkey : cstr s ∉ keyNames)
    (hX : -2147483648 ≤ X ∧ X ≤ 2147483647) (hY : -2147483647 ≤ Y ∧ Y ≤ 2147483647)
    (hZ : -2147483647 ≤ Z ∧ Z ≤ 2147483647) (hA : -2147483648 ≤ A ∧ A ≤ 2147483647) :
    interpretAll .UNKNOWN Entity.empty ["classname".toList, s, "origin".toList,
        originText X Y Z, "angle".toList, decimal A] =
      .ok (.UNKNOWN,
        ⟨cstr s, ⟨Float32.ofInt X, Float32.ofInt (-Z), Float32.ofInt (-Y)⟩, A⟩) := by
  have c1 : cstr "classname".toList = "classname".toList := by decide
  have c2 : cstr "origin".toList = "origin".toList := by decide
  have c3 : cstr "angle".toList = "angle".toList := by decide
  have k1 : classify "classname".toList = .CLASS_NAME := by decide
  have k2 : classify "origin".toList = .ORIGIN := by decide
  have k3 : classify "angle".toList = .ANGLE := by decide
  have i0 : ∀ (e : Entity) (b : List Char), interpret .UNKNOWN e b = .ok (classify b, e) :=
    fun _ _ => rfl
  have i3 : ∀ (e : Entity) (b : List Char),
      interpret .ANGLE e b = .ok (classify b, { e with angle := atoi b }) := fun _ _ => rfl
  have i2 : ∀ e : Entity, interpret .ORIGIN e (originText X Y Z) =
      .ok (.UNKNOWN, { e with origin :=
        ⟨Float32.ofInt X, Float32.ofInt (-Z), Float32.ofInt (-Y)⟩ }) := by
    intro e
    simp only [interpret]
    rw [parseOrigin_originText X Y Z _ hX ⟨by omega, hY.2⟩ ⟨by omega, hZ.2⟩,
      wrapInt32_of_range (-Z) (by omega) (by omega),
      wrapInt32_of_range (-Y) (by omega) (by omega)]
    simp only [ok_bind, classify_of_not_mem _ (decimal_not_keyName X)]
  simp only [interpretAll_cons, interpretAll_nil, c1, c2, c3,
    cstr_eq_self _ fun c hc => (originText_ne X Y Z c hc).2,
    cstr_eq_self _ fun c hc => (decimal_ne A c hc).2.2,
    i0, i3, ok_bind, k1, k2, k3,
    interpret_className _ (cstr s) (Nat.lt_of_le_of_lt (cstr_length_le s) hlen), i2,
    classify_of_not_mem (cstr s) hkey, classify_of_not_mem _ (decimal_not_keyName A),
    atoi_decimal A hA.1 hA.2]

theorem entityText_wellFormed (s : List Char) (X Y Z A : Int)
    (hs : ∀ c ∈ s, c ≠ '"') (hlen : s.length < 255)
    (hX : -2147483648 ≤ X ∧ X ≤ 2147483647) (hY : -2147483648 ≤ Y ∧ Y ≤ 2147483647)
    (hZ : -2147483648 ≤ Z ∧ Z ≤ 2147483647) (hA : -2147483648 ≤ A ∧ A ≤ 2147483647) :
    ∀ it ∈ [(([] : List Char), "classname".toList), ([' '], s), ([' '], "origin".toList),
      ([' '], originText X Y Z), ([' '], "angle".toList), ([' '], decimal A)],
      IsGap it.1 ∧ IsToken it.2 := by
  have g0 : IsGap [] := by decide
  have g1 : IsGap [' '] := by decide
  have t1 : IsToken "classname".toList := by decide
  have t2 : IsToken "origin".toList := by decide
  have t3 : IsToken "angle".toList := by decide
  have t4 : IsToken s := ⟨hs, hlen⟩
  have t5 : IsToken (originText X Y Z) :=
    ⟨fun c hc => (originText_ne X Y Z c hc).1, by
      have := originText_length X Y Z hX hY hZ
      unfold tokenBufferSize; omega⟩
  have t6 : IsToken (decimal A) :=
    ⟨fun c hc => (decimal_ne A c hc).2.1, by
      have := decimal_length A hA.1 hA.2
      unfold tokenBufferSize; omega⟩
  intro it hit
  simp only [List.mem_cons, List.mem_singleton, List.not_mem_nil, or_false] at hit
  rcases hit with rfl | rfl | rfl | rfl | rfl | rfl
  exacts [⟨g0, t1⟩, ⟨g1, t4⟩, ⟨g1, t2⟩, ⟨g1, t5⟩, ⟨g1, t3⟩, ⟨g1, t6⟩]

/-- The entity read from `{"classname" "s" "origin" "X Y Z" "angle" "A"}`: the
origin components are the `float`s nearest to `X`, `-Z` and `-Y`. -/
theorem entityText_result (s : List Char) (X Y Z A : Int)
    (hs : ∀ c ∈ s, c ≠ '"') (hlen : s.length < 255) (hkey : cstr s ∉ keyNames)
    (hX : -2147483648 ≤ X ∧ X ≤ 2147483647) (hY : -2147483647 ≤ Y ∧ Y ≤ 2147483647)
    (hZ : -2147483647 ≤ Z ∧ Z ≤ 2147483647) (hA : -2147483648 ≤ A ∧ A ≤ 2147483647) :
    BSPParser.parseEntities (entityText s X Y Z A) =
      .ok [⟨cstr s, ⟨Float32.ofInt X, Float32.ofInt (-Z), Float32.ofInt (-Y)⟩, A⟩] := by
  unfold entityText
  rw [parseEntities_block _ _
    (entityText_wellFormed s X Y Z A hs hlen hX ⟨by omega, hY.2⟩ ⟨by omega, hZ.2⟩ hA)
    (by decide)]
  simp only [List.map_cons, List.map_nil]
  rw [interpretAll_entityText s X Y Z A hlen hkey hX hY hZ hA]
  rfl

/-- C1 (as amended).  For every class name `s` (no quote, shorter than the
255-byte token buffer) whose C string `cstr s`, the bytes of `s` before its
first NUL byte (all of `s` when it has none), is not a key name, all integers
`X`, `Y`, `Z` of magnitude at most `2 ^ 24` and every `A` in the range of a
32-bit `int`, `BSPParser::parseEntities` on the text
`{"classname" "s" "origin" "X Y Z" "angle" "A"}` yields exactly one entity,
with `className = cstr s`, `angle = A` and `origin = (X, -Z, -Y)`. -/
theorem parseEntities_entityText (s : List Char) (X Y Z A : Int)
    (hs : ∀ c ∈ s, c ≠ '"') (hlen : s.length < 255) (hkey : cstr s ∉ keyNames)
    (hX : X.natAbs ≤ 2 ^ 24) (hY : Y.natAbs ≤ 2 ^ 24) (hZ : Z.natAbs ≤ 2 ^ 24)
    (hA : -2147483648 ≤ A ∧ A ≤ 2147483647) :
    ∃ e : Entity, BSPParser.parseEntities (entityText s X Y Z A) = .ok [e] ∧
      e.className = cstr s ∧ e.angle = A ∧ e.origin.x.toInt? = some X ∧
      e.origin.y.toInt? = some (-Z) ∧ e.origin.z.toInt? = some (-Y) := by
  norm_num at hX hY hZ
  refine ⟨_, entityText_result s X Y Z A hs hlen hkey (by omega) (by omega)
    (by omega) hA, rfl, rfl, ?_, ?_, ?_⟩
  · exact toInt?_ofInt X (by norm_num; omega)
  · exact toInt?_ofInt (-Z) (by norm_num; omega)
  · exact toInt?_ofInt (-Y) (by norm_num; omega)

/-- C1, the text of the spec:
`{"classname" "info_player_start" "origin" "10 20 30" "angle" "90"}` yields one
entity with class name `info_player_start`, angle `90`, origin `(10, -30, -20)`. -/
theorem parseEntities_entityText_witness :
    ∃ e : Entity, BSPParser.parseEntities
        "\x7b\"classname\" \"info_player_start\" \"origin\" \"10 20 30\" \"angle\" \"90\"\x7d".toList
        = .ok [e] ∧
      e.className = "info_player_start".toList ∧ e.angle = 90 ∧ e.origin.x.toInt? = some 10 ∧
      e.origin.y.toInt? = some (-30) ∧ e.origin.z.toInt? = some (-20) :=
  parseEntities_entityText "info_player_start".toList 10 20 30 90 (by decide) (by decide)
    (by decide) (by decide) (by decide) (by decide) (by decide)

/-- C1 as stated fails twice.  The origin is stored in `float`s, and
`16777217` is not one: the `x` component read from `"16777217 20 30"` is
`16777216`.  And the class name is stored as a C string: from the class name
`a`, NUL, `b`, which has no quote, is shorter than 255 bytes and is not a key
name, the entity gets the class name `a`. -/
theorem parseEntities_entityText_counterexample :
    (¬ ∃ e : Entity, BSPParser.parseEntities
        (entityText "info_player_start".toList 16777217 20 30 90) = .ok [e] ∧
      e.className = "info_player_start".toList ∧ e.angle = 90 ∧
      e.origin.x.toInt? = some 16777217 ∧
      e.origin.y.toInt? = some (-30) ∧ e.origin.z.toInt? = some (-20)) ∧
    (((∀ c ∈ ['a', NUL, 'b'], c ≠ '"') ∧ ['a', NUL, 'b'].length < 255 ∧
        ['a', NUL, 'b'] ∉ keyNames) ∧
      ∃ e : Entity, BSPParser.parseEntities (entityText ['a', NUL, 'b'] 10 20 30 90) =
          .ok [e] ∧
        e.className = ['a'] ∧ e.className ≠ ['a', NUL, 'b']) := by
  constructor
  · rintro ⟨e, h, -, -, hx, -⟩
    rw [entityText_result _ _ _ _ _ (by decide) (by decide) (by decide) (by decide)
      (by decide) (by decide) (by decide)] at h
    injection h with h
    injection h with h
    subst h
    revert hx
    decide
  · exact ⟨by decide, _, entityText_result _ _ _ _ _ (by decide) (by decide) (by decide)
      (by decide) (by decide) (by decide) (by decide), by decide, by decide⟩

theorem interpretAll_classname (s : List Char) (hlen : s.length < 255)
    (hkey : cstr s ∉ keyNames) :
    interpretAll .UNKNOWN Entity.empty ["classname".toList, s] =
      .ok (.UNKNOWN, { Entity.empty with className := cstr s }) := by
  have c1 : cstr "classname".toList = "classname".toList := by decide
  have k1 : classify "classname".toList = .CLASS_NAME := by decide
  have i0 : ∀ (e : Entity) (b : List Char), interpret .UNKNOWN e b = .ok (classify b, e) :=
    fun _ _ => rfl
  simp only [interpretAll_cons, interpretAll_nil, c1, i0, ok_bind, k1,
    interpret_className _ (cstr s) (Nat.lt_of_le_of_lt (cstr_length_le s) hlen),
    classify_of_not_mem (cstr s) hkey]

theorem scan_classnameBlocks (ss : List (List Char))
    (h : ∀ s ∈ ss, (∀ c ∈ s, c ≠ '"') ∧ s.length < 255 ∧ cstr s ∉ keyNames) :
    ∀ (e : Entity) (tok : List Char) (es : List Entity), ∃ (e' : Entity) (tok' : List Char),
      scan ⟨.OUTSIDE_ENTITY, .UNKNOWN, e, tok, es⟩ (classnameBlocks ss) =
        .ok ⟨.OUTSIDE_ENTITY, .UNKNOWN, e', tok',
          es ++ ss.map fun s => { Entity.empty with className := cstr s }⟩ := by
  induction ss with
  | nil => intro e tok es; exact ⟨e, tok, by simp [classnameBlocks, scan_nil]⟩
  | cons s ss ih =>
    intro e tok es
    obtain ⟨hs, hlen, hkey⟩ := h s (List.mem_cons_self _ _)
    have hwf : ∀ it ∈ [(([] : List Char), "classname".toList), ([' '], s)],
        IsGap it.1 ∧ IsToken it.2 := by
      intro it hit
      simp only [List.mem_cons, List.mem_singleton, List.not_mem_nil, or_false] at hit
      rcases hit with rfl | rfl
      · exact ⟨(by decide : IsGap []), (by decide : IsToken "classname".toList)⟩
      · exact ⟨(by decide : IsGap [' ']), hs, hlen⟩
    obtain ⟨e', tok', h'⟩ := ih (fun t ht => h t (List.mem_cons_of_mem _ ht))
      { Entity.empty with className := cstr s } s
      (es ++ [{ Entity.empty with className := cstr s }])
    refine ⟨e', tok', ?_⟩
    simp only [classnameBlocks, classnameBlock]
    rw [scan_block _ _ _ _ _ _ _ hwf (by decide)]
    simp only [List.map_cons, List.map_nil]
    rw [interpretAll_classname s hlen hkey]
    simp only [lastToken]
    rw [h']
    simp

/-- C2 (as amended).  Adjacent blocks yield one entity each, in source order:
for class names `s1 .. sn`, each without a quote, shorter than 255 bytes and
with a C string `cstr si` (the bytes of `si` before its first NUL byte, all of
`si` when it has none) that is not a key name, `BSPParser::parseEntities` on
`{"classname" "s1"}...{"classname" "sn"}`, from an empty entity list, yields
exactly `n` entities, whose `className` fields are the C strings
`cstr s1, ..., cstr sn` in that order. -/
theorem parseEntities_adjacent_blocks (ss : List (List Char))
    (h : ∀ s ∈ ss, (∀ c ∈ s, c ≠ '"') ∧ s.length < 255 ∧ cstr s ∉ keyNames) :
    ∃ es : List Entity, BSPParser.parseEntities (classnameBlocks ss) = .ok es ∧
      es.length = ss.length ∧ es.map Entity.className = ss.map cstr := by
  obtain ⟨e', tok', h'⟩ := scan_classnameBlocks ss h Entity.empty [] []
  refine ⟨ss.map fun s => { Entity.empty with className := cstr s }, ?_, by simp, ?_⟩
  · unfold BSPParser.parseEntities Scanner.init
    rw [h']
    rfl
  · simp [List.map_map, Function.comp_def]

/-- C2 (as amended) for two blocks:
`{"classname" "worldspawn"}{"classname" "light"}` yields exactly two entities,
`worldspawn` first. -/
theorem parseEntities_adjacent_blocks_witness :
    ∃ es : List Entity, BSPParser.parseEntities
        "\x7b\"classname\" \"worldspawn\"\x7d\x7b\"classname\" \"light\"\x7d".toList = .ok es ∧
      es.length = 2 ∧ es.map Entity.className = ["worldspawn".toList, "light".toList] :=
  parseEntities_adjacent_blocks ["worldspawn".toList, "light".toList] (by decide)

/-- C2 as stated fails for class names with a NUL byte.  The names `a`, NUL,
`b` and `origin`, NUL, `x` have no quote, are shorter than 255 bytes and are
not key names.  The block of the first gives an entity of the class name `a`:
the name is stored as a C string.  The blocks of the second and of `b`, one
after the other, give no entities at all: the class name is taken for the key
`origin`, the token `classname` of the next block for its value, and
`parseOrigin` writes through a null pointer. -/
theorem parseEntities_adjacent_blocks_counterexample :
    (∀ s ∈ [['a', NUL, 'b'], "origin".toList ++ [NUL, 'x'], ['b']],
      (∀ c ∈ s, c ≠ '"') ∧ s.length < 255 ∧ s ∉ keyNames) ∧
    BSPParser.parseEntities (classnameBlocks [['a', NUL, 'b']]) =
      .ok [{ Entity.empty with className := ['a'] }] ∧
    BSPParser.parseEntities (classnameBlocks ["origin".toList ++ [NUL, 'x'], ['b']]) =
      .error .nullDereference :=
  ⟨by decide, by rfl, by rfl⟩

theorem interpretAll_no_key (ts : List (List Char)) (h : ∀ t ∈ ts, cstr t ∉ keyNames)
    (e : Entity) : interpretAll .UNKNOWN e ts = .ok (.UNKNOWN, e) := by
  induction ts with
  | nil => rfl
  | cons t ts ih =>
    rw [interpretAll_cons]
    simp only [interpret, classify_of_not_mem _ (h t (List.mem_cons_self _ _)), ok_bind]
    exact ih fun u hu => h u (List.mem_cons_of_mem _ hu)

/-- C5 (as amended).  A buffer that is a single block `{ ... }` of quoted
tokens (possibly none, each shorter than 255 bytes), none of which has a key
name for its C string (the bytes of the token before its first NUL byte, all
of the token when it has none), yields exactly one entity, all-default: empty
`className`, zero `origin`, zero `angle`. -/
theorem parseEntities_block_without_keys (items : List (List Char × List Char))
    (gap : List Char) (h : ∀ it ∈ items, IsGap it.1 ∧ IsToken it.2) (hg : IsGap gap)
    (hk : ∀ it ∈ items, cstr it.2 ∉ keyNames) :
    BSPParser.parseEntities (block items gap) = .ok [Entity.empty] := by
  rw [parseEntities_block items gap h hg, interpretAll_no_key]
  · rfl
  · intro t ht
    obtain ⟨it, hit, rfl⟩ := List.mem_map.mp ht
    exact hk it hit

/-- C5 (as amended) at `{}` and at `{ "wad" "gfx.wad" }`: one default-valued
entity each. -/
theorem parseEntities_block_without_keys_witness :
    BSPParser.parseEntities "\x7b\x7d".toList = .ok [Entity.empty] ∧
    BSPParser.parseEntities "\x7b \"wad\" \"gfx.wad\" \x7d".toList = .ok [Entity.empty] :=
  ⟨parseEntities_block_without_keys [] [] (by decide) (by decide) (by decide),
   parseEntities_block_without_keys [([' '], "wad".toList), ([' '], "gfx.wad".toList)] [' ']
     (by decide) (by decide) (by decide)⟩

/-- C5 as stated fails for a token with a NUL byte.  In the block of the
tokens `angle`, NUL, `xyz` and `5` no token is a key name, and the entity is
not the default one: `strcmp` stops at the NUL byte, takes the first token for
the key `angle`, and the angle is 5. -/
theorem parseEntities_block_without_keys_counterexample :
    (∀ it ∈ [(([] : List Char), "angle".toList ++ NUL :: "xyz".toList), ([' '], ['5'])],
      IsGap it.1 ∧ IsToken it.2 ∧ it.2 ∉ keyNames) ∧
    BSPParser.parseEntities
        (block [([], "angle".toList ++ NUL :: "xyz".toList), ([' '], ['5'])] []) =
      .ok [{ Entity.empty with angle := 5 }] ∧
    ({ Entity.empty with angle := 5 } : Entity) ≠ Entity.empty :=
  ⟨by decide, by rfl, by decide⟩

theorem atoi_no_digit (s : List Char) (h : ∀ c ∈ s, isdigit c = false) : atoi s = 0 := by
  have htw : ∀ r : List Char, (∀ c ∈ r, c ∈ s) → r.takeWhile isdigit = [] := by
    intro r hr
    cases r with
    | nil => rfl
    | cons c r => rw [List.takeWhile_cons, h c (hr c (List.mem_cons_self _ _))]; rfl
  unfold atoi
  have hsub : ∀ c ∈ s.dropWhile isspace, c ∈ s :=
    fun c hc => (List.dropWhile_sublist _).subset hc
  cases hd : s.dropWhile isspace with
  | nil => rfl
  | cons c r =>
    rw [hd] at hsub
    simp only
    rw [htw r fun d hd' => hsub d (List.mem_cons_of_mem _ hd'), htw (c :: r) hsub]
    split_ifs <;> rfl

theorem interpretAll_angle (t : List Char) :
    interpretAll .UNKNOWN Entity.empty ["angle".toList, t] =
      .ok (classify (cstr t), { Entity.empty with angle := atoi (cstr t) }) := by
  have c1 : cstr "angle".toList = "angle".toList := by decide
  have k1 : classify "angle".toList = .ANGLE := by decide
  simp only [interpretAll_cons, interpretAll_nil, c1, interpret, k1, ok_bind]

theorem interpretAll_origin (t a b c : List Char) (ht : cstr t = a ++ ' ' :: (b ++ ' ' :: c))
    (ha : ∀ d ∈ a, d ≠ ' ') (hb : ∀ d ∈ b, d ≠ ' ') :
    interpretAll .UNKNOWN Entity.empty ["origin".toList, t] =
      .ok (classify a, { Entity.empty with origin :=
        ⟨Float32.ofInt (atoi a), Float32.ofInt (wrapInt32 (-atoi c)),
          Float32.ofInt (wrapInt32 (-atoi b))⟩ }) := by
  have c1 : cstr "origin".toList = "origin".toList := by decide
  have k1 : classify "origin".toList = .ORIGIN := by decide
  simp only [interpretAll_cons, interpretAll_nil, c1, interpret, k1, ok_bind, ht, parseOrigin,
    splitAtSpace_append _ _ ha, splitAtSpace_append _ _ hb]

theorem keyed_block_wellFormed (k t : List Char) (hk : IsToken k) (ht : IsToken t) :
    ∀ it ∈ [(([] : List Char), k), ([' '], t)], IsGap it.1 ∧ IsToken it.2 := by
  intro it hit
  simp only [List.mem_cons, List.mem_singleton, List.not_mem_nil, or_false] at hit
  rcases hit with rfl | rfl
  · exact ⟨(by decide : IsGap []), hk⟩
  · exact ⟨(by decide : IsGap [' ']), ht⟩

/-- C6 (as amended).  For every token text `t` (no quote, shorter than 255
bytes), with `cstr t` its C string, the bytes of `t` before its first NUL byte
(all of `t` when it has none): `{"angle" "t"}` is parsed without error and
gives the angle `atoi (cstr t)`; `{"origin" "t"}` is parsed without error when
`cstr t` has two spaces, and gives the origin read by `atoi` from the three
parts of `cstr t`; and `atoi` gives `0` on every text without a digit. -/
theorem numeric_fields_best_effort (t : List Char) (ht : IsToken t) :
    BSPParser.parseEntities (block [([], "angle".toList), ([' '], t)] []) =
        .ok [{ Entity.empty with angle := atoi (cstr t) }] ∧
    (∀ a b c : List Char, cstr t = a ++ ' ' :: (b ++ ' ' :: c) →
      (∀ d ∈ a, d ≠ ' ') → (∀ d ∈ b, d ≠ ' ') →
      BSPParser.parseEntities (block [([], "origin".toList), ([' '], t)] []) =
        .ok [{ Entity.empty with origin :=
          ⟨Float32.ofInt (atoi a), Float32.ofInt (wrapInt32 (-atoi c)),
            Float32.ofInt (wrapInt32 (-atoi b))⟩ }]) ∧
    (∀ s : List Char, (∀ d ∈ s, isdigit d = false) → atoi s = 0) := by
  refine ⟨?_, ?_, atoi_no_digit⟩
  · rw [parseEntities_block _ _ (keyed_block_wellFormed _ t (by decide) ht) (by decide)]
    simp only [List.map_cons, List.map_nil]
    rw [interpretAll_angle]
    rfl
  · intro a b c habc ha hb
    rw [parseEntities_block _ _ (keyed_block_wellFormed _ t (by decide) ht) (by decide)]
    simp only [List.map_cons, List.map_nil]
    rw [interpretAll_origin t a b c habc ha hb]
    rfl

/-- C6 (as amended) at `{"angle" "abc"}` and `{"origin" "a b c"}`: angle `0`,
origin `(0, 0, 0)`. -/
theorem numeric_fields_best_effort_witness :
    BSPParser.parseEntities "\x7b\"angle\" \"abc\"\x7d".toList = .ok [Entity.empty] ∧
    BSPParser.parseEntities "\x7b\"origin\" \"a b c\"\x7d".toList = .ok [Entity.empty] ∧
    atoi "abc".toList = 0 :=
  have h := numeric_fields_best_effort "abc".toList (by decide)
  have h' := numeric_fields_best_effort "a b c".toList (by decide)
  ⟨h.1, h'.2.1 "a".toList "b".toList "c".toList (by decide) (by decide) (by decide),
    h.2.2 "abc".toList (by decide)⟩

/-- C6 as stated fails: `{"origin" "abc"}` is not parsed at all (`parseOrigin`
writes through the null pointer that `strstr` returns), nor is the origin
value `1`, NUL, ` 2 3`, whose two spaces come after the NUL byte that ends the
C string; and the value `12abc`, which is not a decimal integer, is read as
`12`, not `0`. -/
theorem numeric_fields_best_effort_counterexample :
    BSPParser.parseEntities "\x7b\"origin\" \"abc\"\x7d".toList = .error .nullDereference ∧
    BSPParser.parseEntities "\x7b\"angle\" \"12abc\"\x7d".toList =
      .ok [{ Entity.empty with angle := 12 }] ∧
    BSPParser.parseEntities
        (block [([], "origin".toList), ([' '], '1' :: NUL :: " 2 3".toList)] []) =
      .error .nullDereference :=
  ⟨by rfl, by rfl, by rfl⟩

/-! ### The token buffer -/

theorem scan_error_of_step_error (sc : Scanner) (c : Char) (rest : List Char) (f : Fault)
    (h : step sc c = .error f) : scan sc (c :: rest) = .error f := by
  rw [scan_cons, h]; rfl

/-- With 255 bytes collected, every next byte is written outside `buffer`. -/
theorem scan_overrun (sc : Scanner) (c : Char) (rest : List Char)
    (hs : sc.state = .INSIDE_STRING) (hl : sc.token.length = tokenBufferSize) :
    scan sc (c :: rest) = .error .bufferOverrun := by
  apply scan_error_of_step_error
  by_cases hc : c = '"'
  · simp [step, hs, hc, closeToken, hl]
  · simp [step, hs, hc, hl]

/-- A class name of 255 bytes or more: the scan stops at a write outside the
token buffer. -/
theorem parseEntities_long_className (t : List Char) (ht : ∀ c ∈ t, c ≠ '"')
    (hl : 255 ≤ t.length) :
    BSPParser.parseEntities (block [([], "classname".toList), ([' '], t)] []) =
      .error .bufferOverrun := by
  have hsplit : t = t.take 255 ++ t.drop 255 := (List.take_append_drop 255 t).symm
  have htake : (t.take 255).length = 255 := by simp; omega
  have hscan : scan Scanner.init ('{' :: (quoted "classname".toList ++ ([' '] ++ ['"']))) =
      .ok ⟨.INSIDE_STRING, .CLASS_NAME, Entity.empty, [], []⟩ := by rfl
  have hrest : ∃ c rest, t.drop 255 ++ ['"', '}'] = c :: rest := by
    cases t.drop 255 with
    | nil => exact ⟨_, _, rfl⟩
    | cons c r => exact ⟨c, r ++ ['"', '}'], rfl⟩
  obtain ⟨c, rest, hcr⟩ := hrest
  have htext : block [([], "classname".toList), ([' '], t)] [] =
      ('{' :: (quoted "classname".toList ++ ([' '] ++ ['"']))) ++
        (t.take 255 ++ (t.drop 255 ++ ['"', '}'])) := by
    rw [← List.append_assoc (t.take 255), ← hsplit]
    simp [block, blockBody, quoted]
  unfold BSPParser.parseEntities
  rw [htext, scan_append, hscan, ok_bind, scan_append,
    scan_string (t.take 255) (fun c hc => ht c (List.mem_of_mem_take hc)) _ rfl
      (by rw [htake]; decide), ok_bind, hcr, scan_overrun _ _ _ rfl (by rw [List.nil_append]; exact htake)]
  rfl

/-- C7 at a class name of 255 bytes, `{"classname" "aaa...a"}`: the closing
quote writes the terminating NUL at `buffer[255]`, outside the 255-byte token
buffer; the scan does not complete and no class name is stored. -/
theorem parseEntities_className_255 :
    BSPParser.parseEntities
        (block [([], "classname".toList), ([' '], List.replicate 255 'a')] []) =
      .error .bufferOverrun :=
  parseEntities_long_className (List.replicate 255 'a')
    (fun c hc => by rw [List.eq_of_mem_replicate hc]; decide)
    (by rw [List.length_replicate])

/-- C8.  `fixCoords` is self-inverse: `fixCoords(fixCoords(v)) = v` for every
vector `v`. -/
theorem fixCoords_fixCoords (v : vec3) : fixCoords (fixCoords v) = v := by
  cases v with
  | mk x y z => simp [fixCoords, Float32.neg]

/-! ## Lumps -/

theorem decodeArray_length {α : Type} (L : Layout α) (n : Nat) (b : List Char) :
    (decodeArray L n b).length = n := by
  simp [decodeArray]

theorem decodeArray_getElem? {α : Type} (L : Layout α) (n : Nat) (b : List Char) (i : Nat)
    (h : i < n) : (decodeArray L n b)[i]? = some (element L b i) := by
  simp [decodeArray, List.getElem?_map, List.getElem?_range h]

theorem slice_take {α : Type} (l : List α) (r a n : Nat) (h : a + n ≤ r) :
    ((l.take r).drop a).take n = (l.drop a).take n := by
  rw [List.drop_take, List.take_take, Nat.min_eq_left (by omega)]

theorem slice_append {α : Type} (l m : List α) (a n : Nat) (h : a + n ≤ l.length) :
    ((l ++ m).drop a).take n = (l.drop a).take n := by
  rw [List.drop_append_of_le_length (by omega), List.take_append_of_le_length]
  rw [List.length_drop]; omega

theorem slice_drop {α : Type} (l : List α) (p a n : Nat) :
    ((l.drop p).drop a).take n = (l.drop (p + a)).take n := by
  rw [List.drop_drop, Nat.add_comm]

theorem mul_succ_le {i n s : Nat} (h : i < n) : i * s + s ≤ s * n := by
  have : (i + 1) * s ≤ n * s := Nat.mul_le_mul_right s h
  rw [Nat.add_mul, Nat.one_mul, Nat.mul_comm n s] at this
  exact this

/-- The element `i` of an array filled from the first bytes of `stream`. -/
theorem element_take {α : Type} (L : Layout α) (file : List Char) (p r i : Nat)
    (h : i * L.size + L.size ≤ r) :
    element L ((file.drop p).take r) i = L.decode ((file.drop (p + i * L.size)).take L.size) := by
  unfold element
  rw [slice_take _ _ _ _ h, slice_drop]

theorem fread_s_zero (bufferSize elementSize count : Nat) (stream : List Char)
    (h : elementSize = 0 ∨ count = 0) :
    fread_s bufferSize elementSize count stream = .ok (0, []) := by
  unfold fread_s; rw [if_pos h]

theorem fread_s_pos (bufferSize elementSize count : Nat) (stream : List Char)
    (h1 : elementSize ≠ 0) (h2 : count ≠ 0)
    (h : (stream.take (elementSize * count)).length ≤ bufferSize) :
    fread_s bufferSize elementSize count stream =
      .ok ((stream.take (elementSize * count)).length / elementSize,
        stream.take (elementSize * count)) := by
  unfold fread_s
  rw [if_neg (by omega)]
  simp only
  rw [if_neg (by omega)]

/-- A checked loader on a file that holds the whole elements of the lump: it
returns them, `size / sizeof` of them. -/
theorem loadChecked_of_holds {α : Type} (L : Layout α) (file : List Char) (fileOffset : Int)
    (lump : Lump) (bufferSize : Nat) (hb : lump.size / L.size * L.size ≤ bufferSize)
    (h : HoldsElements file fileOffset lump L.size) :
    loadChecked L file fileOffset lump bufferSize =
      .ok (decodeArray L (lump.size / L.size)
        ((file.drop (lumpPosition fileOffset lump)).take (L.size * (lump.size / L.size)))) := by
  have hpos := L.size_pos
  unfold HoldsElements at h
  unfold loadChecked seek
  dsimp only
  by_cases hc : lump.size / L.size = 0
  · rw [fread_s_zero _ _ _ _ (Or.inr hc)]
    simp [hc, decodeArray]
  · have hlen : ((file.drop (lumpPosition fileOffset lump)).take
        (L.size * (lump.size / L.size))).length = L.size * (lump.size / L.size) := by
      rw [List.length_take, List.length_drop, Nat.mul_comm]
      omega
    rw [fread_s_pos _ _ _ _ (by omega) hc (by rw [hlen, Nat.mul_comm]; exact hb)]
    simp only [hlen, Nat.mul_div_cancel_left _ hpos, ne_eq, not_true_eq_false, if_false]

theorem toSizeT_eq (n : Nat) (h : n < 2147483648) : toSizeT (wrapInt32 (n : Int)) = n := by
  have h1 : wrapInt32 (n : Int) = n := wrapInt32_of_range _ (by omega) (by omega)
  unfold toSizeT
  rw [h1, Int.emod_eq_of_lt (by omega) (by omega)]
  simp

theorem toSizeT_ge (n : Nat) (h : n < 4294967296) : n ≤ toSizeT (wrapInt32 (n : Int)) := by
  by_cases hn : n < 2147483648
  · rw [toSizeT_eq n hn]
  · have h1 : wrapInt32 (n : Int) = n - 4294967296 := by unfold wrapInt32; omega
    have h2 : ((n : Int) - 4294967296) % 18446744073709551616 =
        n - 4294967296 + 18446744073709551616 := by
      rw [← Int.add_emod_self, Int.emod_eq_of_lt (by omega) (by omega)]
    unfold toSizeT
    rw [h1, h2]
    omega

/-- The single `fread_s` of `readBlock`: the bytes of the file from the
position on, at most `request` of them. -/
theorem fread_s_block (request : Nat) (stream : List Char) :
    ∃ k, fread_s request request 1 stream = .ok (k, stream.take request) := by
  by_cases hr : request = 0
  · rw [fread_s_zero _ _ _ _ (Or.inl hr), hr]
    exact ⟨0, rfl⟩
  · rw [fread_s_pos request request 1 stream hr (by decide)
      (by rw [Nat.mul_one]; exact List.length_take_le _ _), Nat.mul_one]
    exact ⟨_, rfl⟩

theorem readBlock_eq {α : Type} (L : Layout α) (stream : List Char) (count request : Nat)
    (memory : List Char) :
    readBlock L stream count request memory =
      if L.size * count < (stream.take request).length then .error .bufferOverrun
      else .ok (decodeArray L count
        (stream.take request ++ memory.drop (stream.take request).length)) := by
  obtain ⟨k, hk⟩ := fread_s_block request stream
  unfold readBlock
  rw [hk]

/-- What `readBlock` returns: `count` elements, and every element whose bytes
the file has is read from them, when the request covers the vector. -/
theorem readBlock_ok {α : Type} (L : Layout α) (file : List Char) (p count request : Nat)
    (memory : List Char) (xs : List α) (hreq : L.size * count ≤ request)
    (h : readBlock L (file.drop p) count request memory = .ok xs) :
    xs.length = count ∧
    ∀ i, i < count → p + i * L.size + L.size ≤ file.length →
      xs[i]? = some (L.decode ((file.drop (p + i * L.size)).take L.size)) := by
  rw [readBlock_eq] at h
  split_ifs at h with h2
  injection h with h
  subst h
  refine ⟨decodeArray_length _ _ _, ?_⟩
  intro i hi hfile
  have hi' := mul_succ_le (s := L.size) hi
  rw [decodeArray_getElem? _ _ _ _ hi]
  unfold element
  rw [slice_append _ _ _ _ (by rw [List.length_take, List.length_drop]; omega),
    slice_take _ _ _ _ (by omega), slice_drop]

/-- What an unchecked loader returns: as many elements as the lump size
gives, and every element whose bytes the file has is read from them. -/
theorem loadUnchecked_ok {α : Type} (L : Layout α) (file : List Char) (fileOffset : Int)
    (lump : Lump) (xs : List α) (hs : lump.size < 4294967296)
    (h : loadUnchecked L file fileOffset lump = .ok xs) :
    xs.length = lump.size / L.size ∧
    ∀ i, i < lump.size / L.size →
      lumpPosition fileOffset lump + i * L.size + L.size ≤ file.length →
      xs[i]? =
        some (L.decode ((file.drop (lumpPosition fileOffset lump + i * L.size)).take L.size)) := by
  have hmul : L.size * (lump.size / L.size) ≤ lump.size := Nat.mul_div_le _ _
  have hlt : L.size * (lump.size / L.size) < 4294967296 := Nat.lt_of_le_of_lt hmul hs
  exact readBlock_ok L file (lumpPosition fileOffset lump) (lump.size / L.size)
    (toSizeT (wrapInt32 ((L.size * (lump.size / L.size) : Nat) : Int)))
    (List.replicate (L.size * (lump.size / L.size)) NUL) xs (toSizeT_ge _ hlt) h

/-- An unchecked loader on a file that holds the whole elements of a lump
smaller than `2 ^ 31` bytes: it returns them, `size / sizeof` of them. -/
theorem loadUnchecked_of_holds {α : Type} (L : Layout α) (file : List Char) (fileOffset : Int)
    (lump : Lump) (hs : lump.size < 2147483648)
    (h : HoldsElements file fileOffset lump L.size) :
    ∃ xs, loadUnchecked L file fileOffset lump = .ok xs ∧
      xs.length = lump.size / L.size := by
  have hmul : L.size * (lump.size / L.size) ≤ lump.size := Nat.mul_div_le _ _
  have hreq := toSizeT_eq (L.size * (lump.size / L.size)) (by omega)
  unfold HoldsElements at h
  have hlen : ((file.drop (lumpPosition fileOffset lump)).take
      (L.size * (lump.size / L.size))).length = L.size * (lump.size / L.size) := by
    rw [List.length_take, List.length_drop, Nat.mul_comm]
    omega
  have heq : loadUnchecked L file fileOffset lump =
      readBlock L (file.drop (lumpPosition fileOffset lump)) (lump.size / L.size)
        (L.size * (lump.size / L.size))
        (List.replicate (L.size * (lump.size / L.size)) NUL) := by
    unfold loadUnchecked seek
    dsimp only
    rw [hreq]
  rw [heq, readBlock_eq, hlen, if_neg (Nat.lt_irrefl _)]
  exact ⟨_, rfl, decodeArray_length _ _ _⟩

theorem loadChecked_length_of_holds {α : Type} (L : Layout α) (file : List Char)
    (fileOffset : Int) (lump : Lump) (bufferSize : Nat)
    (hb : lump.size / L.size * L.size ≤ bufferSize)
    (h : HoldsElements file fileOffset lump L.size) :
    ∃ xs, loadChecked L file fileOffset lump bufferSize = .ok xs ∧
      xs.length = lump.size / L.size :=
  ⟨_, loadChecked_of_holds L file fileOffset lump bufferSize hb h, decodeArray_length _ _ _⟩

theorem map_length_of_ok {α β : Type} (r : Except Fault (List α)) (f : α → β) (n : Nat)
    (h : ∃ xs, r = .ok xs ∧ xs.length = n) :
    ∃ ys, r.map (List.map f) = .ok ys ∧ ys.length = n := by
  obtain ⟨xs, rfl, hn⟩ := h
  exact ⟨xs.map f, rfl, by rw [List.length_map, hn]⟩

/-- C10 (as amended).  Every typed lump loader takes `size / elementSize`,
rounded down, as the element count, whether the size is a multiple of the
element size or not: on a file that holds that many whole elements at the
place of the lump (and, for `parseVertices` and `parseEdges`, a lump smaller
than `2 ^ 31` bytes) the loader succeeds with exactly that many elements.  The
`size % elementSize` bytes that remain are not read, and no error is raised
for them. -/
theorem loaders_round_down {α β γ δ : Type} (Model : Layout α) (Face : Layout β)
    (Plane : Layout γ) (T : Layout TexInfo) (Edge : Layout δ) (file : List Char)
    (fileOffset : Int) (header : Header) :
    (HoldsElements file fileOffset header.models Model.size →
      ∃ xs, BSPParser.parseModels Model file fileOffset header = .ok xs ∧
        xs.length = header.models.size / Model.size) ∧
    (HoldsElements file fileOffset header.faces Face.size →
      ∃ xs, BSPParser.parseFaces Face file fileOffset header = .ok xs ∧
        xs.length = header.faces.size / Face.size) ∧
    (HoldsElements file fileOffset header.planes Plane.size →
      ∃ xs, BSPParser.parsePlanes Plane file fileOffset header = .ok xs ∧
        xs.length = header.planes.size / Plane.size) ∧
    (HoldsElements file fileOffset header.texinfo T.size →
      ∃ xs, BSPParser.parseTexInfos T file fileOffset header = .ok xs ∧
        xs.length = header.texinfo.size / T.size) ∧
    (HoldsElements file fileOffset header.ledges int32Layout.size →
      ∃ xs, BSPParser.parseEdgeList file fileOffset header = .ok xs ∧
        xs.length = header.ledges.size / int32Layout.size) ∧
    (HoldsElements file fileOffset header.lightmaps uint8Layout.size →
      ∃ xs, BSPParser.parseLightMap file fileOffset header = .ok xs ∧
        xs.length = header.lightmaps.size / uint8Layout.size) ∧
    (header.vertices.size < 2147483648 →
      HoldsElements file fileOffset header.vertices vec3Layout.size →
      ∃ xs, BSPParser.parseVertices file fileOffset header = .ok xs ∧
        xs.length = header.vertices.size / vec3Layout.size) ∧
    (header.edges.size < 2147483648 →
      HoldsElements file fileOffset header.edges Edge.size →
      ∃ xs, BSPParser.parseEdges Edge file fileOffset header = .ok xs ∧
        xs.length = header.edges.size / Edge.size) := by
  refine ⟨?_, ?_, ?_, ?_, ?_, ?_, ?_, ?_⟩
  · exact fun h => loadChecked_length_of_holds Model file fileOffset header.models _
      (Nat.le_refl _) h
  · exact fun h => loadChecked_length_of_holds Face file fileOffset header.faces _
      (Nat.div_mul_le_self _ _) h
  · exact fun h => loadChecked_length_of_holds Plane file fileOffset header.planes _
      (Nat.le_refl _) h
  · exact fun h => map_length_of_ok _ _ _
      (loadChecked_length_of_holds T file fileOffset header.texinfo _
        (Nat.div_mul_le_self _ _) h)
  · exact fun h => loadChecked_length_of_holds int32Layout file fileOffset header.ledges _
      (Nat.div_mul_le_self _ _) h
  · exact fun h => loadChecked_length_of_holds uint8Layout file fileOffset header.lightmaps _
      (Nat.le_refl _) h
  · exact fun hs h => map_length_of_ok _ _ _
      (loadUnchecked_of_holds vec3Layout file fileOffset header.vertices hs h)
  · exact fun hs h => loadUnchecked_of_holds Edge file fileOffset header.edges hs h

/-- C10 (as amended) on an edge list of 5 bytes, one element and a byte: the
loader succeeds with one element. -/
theorem loaders_round_down_witness :
    ∃ xs, BSPParser.parseEdgeList (bytes [1, 0, 0, 0, 2]) 0
        { Header.empty with ledges := ⟨0, 5⟩ } = .ok xs ∧ xs.length = 1 :=
  (loaders_round_down uint8Layout uint8Layout uint8Layout quakeTexInfoLayout uint8Layout
    (bytes [1, 0, 0, 0, 2]) 0 { Header.empty with ledges := ⟨0, 5⟩ }).2.2.2.2.1 (by decide)

/-- C10 as stated fails: the edge list lump of 5 bytes is not a multiple of
the 4 bytes of an element, and `parseEdgeList` succeeds with the one whole
element; the fifth byte is dropped. -/
theorem loaders_round_down_counterexample :
    (5 : Nat) % int32Layout.size ≠ 0 ∧
    BSPParser.parseEdgeList (bytes [1, 0, 0, 0, 2]) 0
      { Header.empty with ledges := ⟨0, 5⟩ } = .ok [1] :=
  ⟨by decide, by rfl⟩

/-! ## Lookups by name -/

/-- The function `strcmp` gives `0` exactly on equal C strings. -/
theorem strcmp_eq_zero : ∀ (a b : List Char), strcmp a b = 0 ↔ cstr a = cstr b
  | [], [] => by simp [strcmp]
  | [], d :: b => by
    by_cases hd : d = NUL
    · simp [strcmp, cstr, hd]
    · simp [strcmp, cstr, hd]
  | c :: a, [] => by
    by_cases hc : c = NUL
    · simp [strcmp, cstr, hc]
    · simp [strcmp, cstr, hc]
  | c :: a, d :: b => by
    have ih := strcmp_eq_zero a b
    by_cases hcd : c = d
    · subst hcd
      by_cases hc : c = NUL
      · simp [strcmp, cstr, hc]
      · simp only [cstr] at ih
        simp [strcmp, cstr, hc, ih]
    · have hs : strcmp (c :: a) (d :: b) ≠ 0 := by
        unfold strcmp
        rw [if_neg hcd]
        split_ifs <;> decide
      have hne : cstr (c :: a) ≠ cstr (d :: b) := by
        by_cases hc : c = NUL
        · by_cases hd : d = NUL
          · exact absurd (hc.trans hd.symm) hcd
          · simp [cstr, hc, hd]
        · by_cases hd : d = NUL
          · simp [cstr, hc, hd]
          · simp [cstr, hc, hd, hcd]
      exact ⟨fun h => absurd h hs, fun h => absurd h hne⟩

/-- C15.  `BSPParser::findEntityByName(name)` returns the first entity, in the
order of the entity list, whose `className` equals `name` (both are C
strings, compared by `strcmp`): it returns `entity` exactly when the list is
`before ++ entity :: after` with the `className` of `entity` equal to `name`
and no entity of `before` having that `className`.  It fails with the
not-found error exactly when no entity of the list has that `className`, and
it always does one of the two. -/
theorem findEntityByName_first (entities : List Entity) (name : List Char) :
    (∀ entity, BSPParser.findEntityByName entities name = .ok entity ↔
      ∃ before after, entities = before ++ entity :: after ∧
        cstr entity.className = cstr name ∧
        ∀ e ∈ before, cstr e.className ≠ cstr name) ∧
    (BSPParser.findEntityByName entities name = .error .notFound ↔
      ∀ e ∈ entities, cstr e.className ≠ cstr name) ∧
    ((∃ entity, BSPParser.findEntityByName entities name = .ok entity) ∨
      BSPParser.findEntityByName entities name = .error .notFound) := by
  induction entities with
  | nil =>
    refine ⟨?_, ?_, ?_⟩
    · intro entity
      simp [BSPParser.findEntityByName]
    · simp [BSPParser.findEntityByName]
    · right; rfl
  | cons e es ih =>
    obtain ⟨ih1, ih2, ih3⟩ := ih
    by_cases h : strcmp name e.className = 0
    · have hc : cstr e.className = cstr name := ((strcmp_eq_zero _ _).1 h).symm
      have hf : BSPParser.findEntityByName (e :: es) name = .ok e := by
        simp [BSPParser.findEntityByName, h]
      refine ⟨?_, ?_, ?_⟩
      · intro entity
        rw [hf]
        constructor
        · intro heq
          injection heq with heq
          subst heq
          exact ⟨[], es, rfl, hc, by simp⟩
        · rintro ⟨before, after, hl, _, hb⟩
          cases before with
          | nil =>
            simp only [List.nil_append, List.cons.injEq] at hl
            rw [hl.1]
          | cons b bs =>
            simp only [List.cons_append, List.cons.injEq] at hl
            exact absurd hc (hl.1 ▸ hb b (List.mem_cons_self _ _))
      · rw [hf]
        constructor
        · intro heq; cases heq
        · intro hall
          exact absurd hc (hall e (List.mem_cons_self _ _))
      · left; exact ⟨e, hf⟩
    · have hc : cstr e.className ≠ cstr name := fun hc => h ((strcmp_eq_zero _ _).2 hc.symm)
      have hf : BSPParser.findEntityByName (e :: es) name =
          BSPParser.findEntityByName es name := by
        simp [BSPParser.findEntityByName, h]
      rw [hf]
      refine ⟨?_, ?_, ih3⟩
      · intro entity
        rw [ih1 entity]
        constructor
        · rintro ⟨before, after, hl, hn, hb⟩
          refine ⟨e :: before, after, by rw [hl]; rfl, hn, ?_⟩
          intro x hx
          rcases List.mem_cons.1 hx with rfl | hx
          · exact hc
          · exact hb x hx
        · rintro ⟨before, after, hl, hn, hb⟩
          cases before with
          | nil =>
            simp only [List.nil_append, List.cons.injEq] at hl
            exact absurd (hl.1 ▸ hn) hc
          | cons b bs =>
            simp only [List.cons_append, List.cons.injEq] at hl
            exact ⟨bs, after, hl.2, hn, fun x hx => hb x (List.mem_cons_of_mem _ hx)⟩
      · rw [ih2]
        constructor
        · intro hall x hx
          rcases List.mem_cons.1 hx with rfl | hx
          · exact hc
          · exact hall x hx
        · intro hall x hx
          exact hall x (List.mem_cons_of_mem _ hx)

/-- C15 on the list of the entities `a`, `b` (angle 1), `b` (angle 2): the
name `b` finds the first of the two, the name `c` is not found. -/
theorem findEntityByName_first_witness :
    BSPParser.findEntityByName
        [{ Entity.empty with className := ['a'] },
          { Entity.empty with className := ['b'], angle := 1 },
          { Entity.empty with className := ['b'], angle := 2 }] ['b'] =
      .ok { Entity.empty with className := ['b'], angle := 1 } ∧
    BSPParser.findEntityByName
        [{ Entity.empty with className := ['a'] },
          { Entity.empty with className := ['b'], angle := 1 },
          { Entity.empty with className := ['b'], angle := 2 }] ['c'] = .error .notFound :=
  ⟨((findEntityByName_first _ ['b']).1 _).2
      ⟨[{ Entity.empty with className := ['a'] }],
        [{ Entity.empty with className := ['b'], angle := 2 }], rfl, by decide, by decide⟩,
    (findEntityByName_first _ ['c']).2.1.2 (by decide)⟩

/-- The comparison of `strcmp` with a name field that holds a NUL is decided
inside the field, and is `0` exactly on equal C strings. -/
theorem strcmpInObject_terminated (name rest : List Char) :
    ∀ s : List Char, NUL ∈ name →
      ∃ order, strcmpInObject s (name ++ rest) = .ok order ∧
        (order = 0 ↔ cstr s = cstr name) := by
  induction name with
  | nil => intro s h; cases h
  | cons d name ih =>
    intro s h
    cases s with
    | nil =>
      by_cases hd : d = NUL
      · exact ⟨0, by simp [strcmpInObject, hd], by simp [cstr, hd]⟩
      · exact ⟨-1, by simp [strcmpInObject, hd], by simp [cstr, hd]⟩
    | cons c s =>
      by_cases hcd : c = d
      · subst hcd
        by_cases hc : c = NUL
        · exact ⟨0, by simp [strcmpInObject, hc], by simp [cstr, hc]⟩
        · have hmem : NUL ∈ name := by
            rcases List.mem_cons.1 h with h1 | h1
            · exact absurd h1.symm hc
            · exact h1
          obtain ⟨order, h1, h2⟩ := ih s hmem
          refine ⟨order, by simp [strcmpInObject, hc, h1], ?_⟩
          simp only [cstr] at h2
          simp [cstr, hc, h2]
      · refine ⟨if byteValue c < byteValue d then -1 else 1,
          by simp [strcmpInObject, hcd], ?_⟩
        have hs : (if byteValue c < byteValue d then (-1 : Int) else 1) ≠ 0 := by
          split_ifs <;> decide
        have hne : cstr (c :: s) ≠ cstr (d :: name) := by
          by_cases hc : c = NUL
          · by_cases hd : d = NUL
            · exact absurd (hc.trans hd.symm) hcd
            · simp [cstr, hc, hd]
          · by_cases hd : d = NUL
            · simp [cstr, hc, hd]
            · simp [cstr, hc, hd, hcd]
        exact ⟨fun h0 => absurd h0 hs, fun h0 => absurd h0 hne⟩

/-- The loop of `loadMap` on a directory whose first entry of the name sought
is `entry`. -/
theorem loadMapFrom_first {β : Type} (newBSPParser : Nat → Except Fault β)
    (entryName : List Char) (before : List PAKFileEntry) (entry : PAKFileEntry)
    (after : List PAKFileEntry) (hn : ∀ e ∈ before ++ entry :: after, NUL ∈ e.name)
    (he : cstr entry.name = cstr entryName)
    (hb : ∀ e ∈ before, cstr e.name ≠ cstr entryName) :
    PAKParser.loadMapFrom newBSPParser entryName (before ++ entry :: after) =
      newBSPParser entry.offset := by
  induction before with
  | nil =>
    obtain ⟨order, h1, h2⟩ := strcmpInObject_terminated entry.name
      (uint32Bytes entry.offset ++ uint32Bytes entry.size) entryName
      (hn entry (List.mem_cons_self _ _))
    have h0 : order = 0 := h2.2 he.symm
    simp only [List.nil_append, PAKParser.loadMapFrom, PAKFileEntry.bytesFromName, h1, h0,
      if_true]
  | cons b bs ih =>
    obtain ⟨order, h1, h2⟩ := strcmpInObject_terminated b.name
      (uint32Bytes b.offset ++ uint32Bytes b.size) entryName
      (hn b (List.mem_cons_self _ _))
    have h0 : order ≠ 0 := fun h => hb b (List.mem_cons_self _ _) (h2.1 h).symm
    simp only [List.cons_append, PAKParser.loadMapFrom, PAKFileEntry.bytesFromName, h1,
      if_neg h0]
    exact ih (fun e he => hn e (List.mem_cons_of_mem _ he))
      fun e he => hb e (List.mem_cons_of_mem _ he)

/-- The loop of `loadMap` on a directory without the name sought. -/
theorem loadMapFrom_none {β : Type} (newBSPParser : Nat → Except Fault β)
    (entryName : List Char) (entries : List PAKFileEntry)
    (hn : ∀ e ∈ entries, NUL ∈ e.name)
    (h : ∀ e ∈ entries, cstr e.name ≠ cstr entryName) :
    PAKParser.loadMapFrom newBSPParser entryName entries = .error .notFound := by
  induction entries with
  | nil => rfl
  | cons b bs ih =>
    obtain ⟨order, h1, h2⟩ := strcmpInObject_terminated b.name
      (uint32Bytes b.offset ++ uint32Bytes b.size) entryName
      (hn b (List.mem_cons_self _ _))
    have h0 : order ≠ 0 := fun h0 => h b (List.mem_cons_self _ _) (h2.1 h0).symm
    simp only [PAKParser.loadMapFrom, PAKFileEntry.bytesFromName, h1, if_neg h0]
    exact ih (fun e he => hn e (List.mem_cons_of_mem _ he))
      fun e he => h e (List.mem_cons_of_mem _ he)

/-- C14 (as amended).  For every directory whose entries each hold a NUL byte
in the name field, and every map name, `PAKParser::loadMap` compares the entry
name `"maps/" + name + ".bsp"`, read as a C string (its bytes before the first
NUL byte, all of it when the map name has none), with the NUL-terminated names
of the entries.  If `entry` is the first entry of the directory whose name
equals it, the result is that of constructing the level at `entry.offset`,
whatever entries follow (later duplicates are not used).  If no entry has that
name, `loadMap` fails with the not-found error whatever the constructor of the
level would do: nothing is parsed. -/
theorem loadMap_first_match {β : Type} (newBSPParser : Nat → Except Fault β)
    (entries : List PAKFileEntry) (name : List Char)
    (hn : ∀ e ∈ entries, NUL ∈ e.name) :
    (∀ before entry after, entries = before ++ entry :: after →
      cstr entry.name = cstr ("maps/".toList ++ name ++ ".bsp".toList) →
      (∀ e ∈ before, cstr e.name ≠ cstr ("maps/".toList ++ name ++ ".bsp".toList)) →
      PAKParser.loadMap newBSPParser entries name = newBSPParser entry.offset) ∧
    ((∀ e ∈ entries, cstr e.name ≠ cstr ("maps/".toList ++ name ++ ".bsp".toList)) →
      PAKParser.loadMap newBSPParser entries name = .error .notFound) := by
  constructor
  · intro before entry after hl he hb
    subst hl
    exact loadMapFrom_first newBSPParser _ before entry after hn he hb
  · intro h
    exact loadMapFrom_none newBSPParser _ entries hn h

/-- C14 (as amended) on a directory with `maps/e1m1.bsp` at 100 and
`maps/e1m2.bsp` at 200 and again at 300, each name followed by NUL bytes to
the end of its field of 56 bytes: the map `e1m2` is constructed at 200, the
map `e9` is not found. -/
theorem loadMap_first_match_witness :
    PAKParser.loadMap (fun offset => Except.ok offset)
        [⟨"maps/e1m1.bsp".toList ++ List.replicate 43 NUL, 100, 10⟩,
          ⟨"maps/e1m2.bsp".toList ++ List.replicate 43 NUL, 200, 10⟩,
          ⟨"maps/e1m2.bsp".toList ++ List.replicate 43 NUL, 300, 10⟩] "e1m2".toList =
      .ok 200 ∧
    PAKParser.loadMap (fun offset => Except.ok offset)
        [⟨"maps/e1m1.bsp".toList ++ List.replicate 43 NUL, 100, 10⟩,
          ⟨"maps/e1m2.bsp".toList ++ List.replicate 43 NUL, 200, 10⟩,
          ⟨"maps/e1m2.bsp".toList ++ List.replicate 43 NUL, 300, 10⟩] "e9".toList =
      .error .notFound :=
  ⟨(loadMap_first_match (fun offset => Except.ok offset) _ "e1m2".toList (by decide)).1
      [⟨"maps/e1m1.bsp".toList ++ List.replicate 43 NUL, 100, 10⟩]
      ⟨"maps/e1m2.bsp".toList ++ List.replicate 43 NUL, 200, 10⟩
      [⟨"maps/e1m2.bsp".toList ++ List.replicate 43 NUL, 300, 10⟩] rfl (by decide)
      (by decide),
    (loadMap_first_match (fun offset => Except.ok offset) _ "e9".toList (by decide)).2
      (by decide)⟩

/-- C14 as stated fails twice.  For the map name `b` followed by a NUL byte
the entry name is `maps/b`, a NUL byte, `.bsp`; the only entry has the
NUL-terminated name `maps/b`, which is not that entry name, and `loadMap` does
not fail: `strcmp` stops at the NUL byte and the level is constructed at 200.
And for a name field of 56 bytes filled by `maps/aaa...a.bsp` with no NUL byte,
the map of that name is not found: `strcmp` reads on into the bytes of
`offset`, the first of which is 200, not NUL. -/
theorem loadMap_first_match_counterexample :
    ((∀ e ∈ [(⟨"maps/b".toList ++ List.replicate 50 NUL, 200, 10⟩ : PAKFileEntry)],
        cstr e.name ≠ "maps/".toList ++ ['b', NUL] ++ ".bsp".toList) ∧
      PAKParser.loadMap (fun offset => Except.ok offset)
        [⟨"maps/b".toList ++ List.replicate 50 NUL, 200, 10⟩] ['b', NUL] = .ok 200) ∧
    ("maps/".toList ++ List.replicate 47 'a' ++ ".bsp".toList).length = 56 ∧
    PAKParser.loadMap (fun offset => Except.ok offset)
        [⟨"maps/".toList ++ List.replicate 47 'a' ++ ".bsp".toList, 200, 10⟩]
        (List.replicate 47 'a') = .error .notFound :=
  ⟨⟨by decide, by rfl⟩, by rfl, by rfl⟩

/-! ## Headers -/

theorem readStruct_eq_ok {α : Type} (L : Layout α) (stream : List Char) (x : α)
    (h : readStruct L stream = .ok x) :
    L.size ≤ stream.length ∧ x = L.decode (stream.take L.size) := by
  unfold readStruct at h
  split_ifs at h with hl
  injection h with h
  exact ⟨by omega, h.symm⟩

/-- A buffer as long as its C string is that string. -/
theorem cstr_eq_of_length (s t : List Char) (h : cstr s = t) (hl : s.length = t.length) :
    s = t := by
  have hp : cstr s <+: s := List.takeWhile_prefix _
  rw [h] at hp
  exact (hp.eq_of_length hl.symm).symm

/-- The comparison of a tag of four bytes with `"PACK"`: `strncmp` gives `0`
exactly when the four bytes are `P`, `A`, `C`, `K`. -/
theorem strncmp_PACK (id : List Char) (h : id.length = 4) :
    strncmp "PACK".toList id HEADER_LENGTH = 0 ↔ id = "PACK".toList := by
  have hid : id.take HEADER_LENGTH = id := List.take_of_length_le (by rw [h]; decide)
  have hp : cstr (("PACK".toList).take HEADER_LENGTH) = "PACK".toList := by decide
  unfold strncmp
  rw [strcmp_eq_zero, hid, hp]
  constructor
  · intro hc
    exact cstr_eq_of_length id _ hc.symm h
  · intro hc
    rw [hc]
    decide

theorem pak_id_length (file : List Char) (header : PAKHeader)
    (h : readStruct PAKHeader.layout file = .ok header) : header.id.length = 4 := by
  obtain ⟨hl, hx⟩ := readStruct_eq_ok _ _ _ h
  have h12 : PAKHeader.layout.size = 12 := rfl
  rw [h12] at hl hx
  subst hx
  show ((file.take 12).take 4).length = 4
  rw [List.length_take, List.length_take]
  omega

/-- C16.  `PAKParser::parseHeader` fails with the format error if and only if
the header that was read has a magic tag that differs from the four bytes
`P`, `A`, `C`, `K`, whichever bytes differ (a NUL among them or not); when the
tag is `PACK` it succeeds, with the header that was read. -/
theorem parseHeader_magic (file : List Char) :
    (PAKParser.parseHeader file = .error .notPak ↔
      ∃ header, readStruct PAKHeader.layout file = .ok header ∧
        header.id ≠ ['P', 'A', 'C', 'K']) ∧
    (∀ header, readStruct PAKHeader.layout file = .ok header →
      header.id = ['P', 'A', 'C', 'K'] → PAKParser.parseHeader file = .ok header) := by
  unfold PAKParser.parseHeader
  cases hr : readStruct PAKHeader.layout file with
  | error fault =>
    refine ⟨⟨?_, ?_⟩, ?_⟩
    · intro h
      injection h with h
      subst h
      unfold readStruct at hr
      split_ifs at hr
      cases hr
    · rintro ⟨header, h, _⟩
      cases h
    · intro header h
      cases h
  | ok header =>
    have hlen := pak_id_length file header hr
    have hcmp := strncmp_PACK header.id hlen
    refine ⟨⟨?_, ?_⟩, ?_⟩
    · intro h
      refine ⟨header, rfl, ?_⟩
      intro hid
      simp only [ne_eq, hcmp.2 hid, not_true_eq_false, if_false] at h
      cases h
    · rintro ⟨header', h, hid⟩
      injection h with h
      subst h
      have : strncmp "PACK".toList header.id HEADER_LENGTH ≠ 0 := fun h0 => hid (hcmp.1 h0)
      simp only [if_pos this]
    · intro header' h hid
      injection h with h
      subst h
      simp only [ne_eq, hcmp.2 hid, not_true_eq_false, if_false]

/-- C16 on two headers of 12 bytes: with the tag `PAC` and a NUL the format
error, with the tag `PACK` the header, directory at 12 and of 64 bytes. -/
theorem parseHeader_magic_witness :
    PAKParser.parseHeader ("PAC".toList ++ bytes [0, 12, 0, 0, 0, 64, 0, 0, 0]) =
      .error .notPak ∧
    PAKParser.parseHeader ("PACK".toList ++ bytes [12, 0, 0, 0, 64, 0, 0, 0]) =
      .ok ⟨"PACK".toList, 12, 64⟩ :=
  ⟨(parseHeader_magic _).1.2 ⟨_, rfl, by decide⟩, (parseHeader_magic _).2 _ rfl rfl⟩

/-- The constructor ends with the error of `parseHeader`, its first step. -/
theorem new_of_parseHeader_error {Model Face Plane Edge Atlas : Type}
    (D : Declarations Model Face Plane Edge Atlas) (file : List Char) (offset : Int)
    (memory : List Char) (fault : Fault)
    (h : BSPParser.parseHeader D.header file offset = .error fault) :
    BSPParser.new D file offset memory = .error fault := by
  unfold BSPParser.new
  rw [h]
  rfl

/-- C17.  `BSPParser::parseHeader` fails with the version error if and only
if the version field of the header read at the base offset is not 29 (with
the version 29 it returns the header), and the constructor of `BSPParser`
checks the version first: when the version is not 29 the construction fails
as a whole with the version error, whatever the layouts, the atlas
constructor and the rest of the file are, before any lump is loaded. -/
theorem parseHeader_version {Model Face Plane Edge Atlas : Type}
    (D : Declarations Model Face Plane Edge Atlas) (file : List Char) (offset : Int)
    (memory : List Char) :
    (BSPParser.parseHeader D.header file offset = .error .badVersion ↔
      ∃ header, readStruct D.header (seek file offset.toNat) = .ok header ∧
        header.version ≠ 29) ∧
    (∀ header, readStruct D.header (seek file offset.toNat) = .ok header →
      header.version = 29 → BSPParser.parseHeader D.header file offset = .ok header) ∧
    (∀ header, readStruct D.header (seek file offset.toNat) = .ok header →
      header.version ≠ 29 → BSPParser.new D file offset memory = .error .badVersion) := by
  have key : ∀ header, readStruct D.header (seek file offset.toNat) = .ok header →
      BSPParser.parseHeader D.header file offset =
        if header.version ≠ 29 then .error .badVersion else .ok header := by
    intro header h
    unfold BSPParser.parseHeader
    rw [h]
  refine ⟨⟨?_, ?_⟩, ?_, ?_⟩
  · intro h
    cases hr : readStruct D.header (seek file offset.toNat) with
    | error fault =>
      unfold BSPParser.parseHeader at h
      rw [hr] at h
      injection h with h
      subst h
      unfold readStruct at hr
      split_ifs at hr
      cases hr
    | ok header =>
      refine ⟨header, rfl, ?_⟩
      intro hv
      rw [key header hr, if_neg (by simpa using hv)] at h
      cases h
  · rintro ⟨header, hr, hv⟩
    rw [key header hr, if_pos hv]
  · intro header hr hv
    rw [key header hr, if_neg (by simpa using hv)]
  · intro header hr hv
    apply new_of_parseHeader_error
    rw [key header hr, if_pos hv]

set_option maxRecDepth 8000 in
/-- C17 on a level of version 30 at the offset 3 of a file: the header is
read, and the construction fails with the version error. -/
theorem parseHeader_version_witness :
    ∃ header, readStruct quakeHeaderLayout
        (seek (bytes [9, 9, 9] ++ bytes [30, 0, 0, 0] ++ List.replicate 120 NUL) 3) =
          .ok header ∧
      header.version = 30 ∧
      BSPParser.new quakeDeclarations
        (bytes [9, 9, 9] ++ bytes [30, 0, 0, 0] ++ List.replicate 120 NUL) 3 [] =
          .error .badVersion :=
  ⟨_, rfl, rfl,
    (parseHeader_version quakeDeclarations
      (bytes [9, 9, 9] ++ bytes [30, 0, 0, 0] ++ List.replicate 120 NUL) 3 []).2.2 _ rfl
      (by decide)⟩

/-! ## Arrays read from files -/

theorem lumpElements_length {α : Type} (L : Layout α) (file : List Char) (p n : Nat) :
    (lumpElements L file p n).length = n := by
  simp [lumpElements]

/-- The array filled from the first bytes of a stream holds the elements of
the file at their places. -/
theorem decodeArray_take {α : Type} (L : Layout α) (file : List Char) (p n : Nat) :
    decodeArray L n ((file.drop p).take (L.size * n)) = lumpElements L file p n := by
  unfold decodeArray lumpElements
  apply List.map_congr_left
  intro i hi
  exact element_take L file p _ i (mul_succ_le (List.mem_range.1 hi))

/-- The read of `count` elements into a buffer that has room for them, with
the `runtime_error` when fewer are read. -/
theorem fread_s_count {α : Type} (L : Layout α) (file : List Char) (p count bufferSize : Nat)
    (hb : L.size * count ≤ bufferSize) :
    (match fread_s bufferSize L.size count (seek file p) with
      | .error fault => (.error fault : Except Fault (List α))
      | .ok (read, data) =>
        if read ≠ count then .error .unexpectedEof else .ok (decodeArray L count data)) =
    if (file.length - p) / L.size < count then .error .unexpectedEof
    else .ok (lumpElements L file p count) := by
  have hpos := L.size_pos
  unfold seek
  by_cases hc : count = 0
  · subst hc
    rw [fread_s_zero _ _ _ _ (Or.inr rfl)]
    simp [lumpElements, decodeArray]
  · rw [fread_s_pos _ _ _ _ (by omega) hc
      (Nat.le_trans (List.length_take_le _ _) hb)]
    simp only [List.length_take, List.length_drop]
    by_cases hlt : (file.length - p) / L.size < count
    · have h1 : file.length - p < L.size * count := by
        rw [Nat.div_lt_iff_lt_mul hpos, Nat.mul_comm] at hlt
        exact hlt
      have h2 : min (L.size * count) (file.length - p) / L.size ≠ count := by
        rw [Nat.min_eq_right (by omega)]
        omega
      rw [if_pos h2, if_pos hlt]
    · have h1 : L.size * count ≤ file.length - p := by
        rw [Nat.div_lt_iff_lt_mul hpos, Nat.mul_comm] at hlt
        omega
      have h2 : ¬ min (L.size * count) (file.length - p) / L.size ≠ count := by
        rw [Nat.min_eq_left h1, Nat.mul_div_cancel_left _ hpos]
        simp
      rw [if_neg h2, if_neg hlt, decodeArray_take]

/-- What a checked loader does on every file: the `runtime_error` when the
file has fewer whole elements than the lump size gives, else the elements. -/
theorem loadChecked_eq {α : Type} (L : Layout α) (file : List Char) (fileOffset : Int)
    (lump : Lump) (bufferSize : Nat) (hb : lump.size / L.size * L.size ≤ bufferSize) :
    loadChecked L file fileOffset lump bufferSize =
      if (file.length - lumpPosition fileOffset lump) / L.size < lump.size / L.size then
        .error .unexpectedEof
      else .ok (lumpElements L file (lumpPosition fileOffset lump) (lump.size / L.size)) := by
  unfold loadChecked
  dsimp only
  generalize lump.size / L.size = count at hb ⊢
  exact fread_s_count L file _ count bufferSize (by rw [Nat.mul_comm]; exact hb)

/-- C13.  `PAKParser::parseEntries` takes `header.size / 64` (integer
division) as the entry count.  It fails with the truncation error exactly
when the file holds fewer than that many complete entries from `header.offset`
on; otherwise it succeeds with exactly that many entries, entry `i` read from
the bytes of the file at `header.offset + i * sizeof(PAKFileEntry)`, in file
order. -/
theorem parseEntries_count (Entry : Layout PAKFileEntry) (file : List Char)
    (header : PAKHeader) :
    PAKParser.parseEntries Entry file header =
      (if (file.length - header.offset) / Entry.size < header.size / 64 then
        .error .unexpectedEof
      else .ok (lumpElements Entry file header.offset (header.size / 64))) ∧
    (lumpElements Entry file header.offset (header.size / 64)).length = header.size / 64 := by
  refine ⟨?_, lumpElements_length _ _ _ _⟩
  have h64 : header.size / FILE_ENTRY_LENGTH = header.size / 64 := rfl
  unfold PAKParser.parseEntries
  dsimp only
  rw [h64]
  generalize header.size / 64 = count
  exact fread_s_count Entry file header.offset count _ (Nat.le_refl _)

/-- C13 on a file with one entry of 64 bytes at the offset 12: a directory
size of 64 to 127 bytes gives that entry, a directory size of 128 bytes the
truncation error. -/
theorem parseEntries_count_witness :
    PAKParser.parseEntries PAKFileEntry.layout
        (List.replicate 12 'x' ++ ("maps/a.bsp".toList ++ List.replicate 46 NUL ++
          bytes [76, 0, 0, 0, 5, 0, 0, 0])) ⟨"PACK".toList, 12, 100⟩ =
      .ok [⟨"maps/a.bsp".toList ++ List.replicate 46 NUL, 76, 5⟩] ∧
    PAKParser.parseEntries PAKFileEntry.layout
        (List.replicate 12 'x' ++ ("maps/a.bsp".toList ++ List.replicate 46 NUL ++
          bytes [76, 0, 0, 0, 5, 0, 0, 0])) ⟨"PACK".toList, 12, 128⟩ =
      .error .unexpectedEof :=
  ⟨(parseEntries_count PAKFileEntry.layout _ ⟨"PACK".toList, 12, 100⟩).1.trans (by rfl),
    (parseEntries_count PAKFileEntry.layout _ ⟨"PACK".toList, 12, 128⟩).1.trans (by rfl)⟩

theorem lumpPosition_of_contains (file : List Char) (fileOffset : Int) (lump : Lump)
    (h : ContainsLump file fileOffset lump) :
    lumpPosition fileOffset lump = (fileOffset + lump.offset).toNat := by
  unfold lumpPosition
  rw [Int.emod_eq_of_lt h.1 h.2.1]

theorem holds_of_contains (file : List Char) (fileOffset : Int) (lump : Lump) (s : Nat)
    (h : ContainsLump file fileOffset lump) : HoldsElements file fileOffset lump s := by
  unfold HoldsElements
  rw [lumpPosition_of_contains file fileOffset lump h]
  obtain ⟨h1, _, h3⟩ := h
  have hm : lump.size / s * s ≤ lump.size := Nat.div_mul_le_self _ _
  generalize lump.size / s * s = m at hm ⊢
  omega

/-- A checked loader on a file that contains the lump. -/
theorem loadChecked_contains {α : Type} (L : Layout α) (file : List Char) (fileOffset : Int)
    (lump : Lump) (bufferSize : Nat) (hb : lump.size / L.size * L.size ≤ bufferSize)
    (h : ContainsLump file fileOffset lump) :
    loadChecked L file fileOffset lump bufferSize =
      .ok (lumpElements L file (fileOffset + lump.offset).toNat (lump.size / L.size)) := by
  rw [loadChecked_of_holds L file fileOffset lump bufferSize hb
    (holds_of_contains file fileOffset lump L.size h), decodeArray_take,
    lumpPosition_of_contains file fileOffset lump h]

/-- An unchecked loader on a file that holds the whole elements of a lump
smaller than `2 ^ 31` bytes: the elements of the file at their places. -/
theorem loadUnchecked_eq_of_holds {α : Type} (L : Layout α) (file : List Char)
    (fileOffset : Int) (lump : Lump) (hs : lump.size < 2147483648)
    (h : HoldsElements file fileOffset lump L.size) :
    loadUnchecked L file fileOffset lump =
      .ok (lumpElements L file (lumpPosition fileOffset lump) (lump.size / L.size)) := by
  have hmul : L.size * (lump.size / L.size) ≤ lump.size := Nat.mul_div_le _ _
  have hreq := toSizeT_eq (L.size * (lump.size / L.size)) (by omega)
  unfold HoldsElements at h
  have hlen : ((file.drop (lumpPosition fileOffset lump)).take
      (L.size * (lump.size / L.size))).length = L.size * (lump.size / L.size) := by
    rw [List.length_take, List.length_drop, Nat.mul_comm]
    omega
  have heq : loadUnchecked L file fileOffset lump =
      readBlock L (file.drop (lumpPosition fileOffset lump)) (lump.size / L.size)
        (L.size * (lump.size / L.size))
        (List.replicate (L.size * (lump.size / L.size)) NUL) := by
    unfold loadUnchecked seek
    dsimp only
    rw [hreq]
  rw [heq, readBlock_eq, hlen, if_neg (Nat.lt_irrefl _), List.drop_replicate, Nat.sub_self,
    List.replicate_zero, List.append_nil, decodeArray_take]

/-- An unchecked loader on a file that contains a lump smaller than `2 ^ 31`
bytes. -/
theorem loadUnchecked_contains {α : Type} (L : Layout α) (file : List Char)
    (fileOffset : Int) (lump : Lump) (hs : lump.size < 2147483648)
    (h : ContainsLump file fileOffset lump) :
    loadUnchecked L file fileOffset lump =
      .ok (lumpElements L file (fileOffset + lump.offset).toNat (lump.size / L.size)) := by
  rw [loadUnchecked_eq_of_holds L file fileOffset lump hs
    (holds_of_contains file fileOffset lump L.size h),
    lumpPosition_of_contains file fileOffset lump h]

/-- What the loaders return on a file that contains the lump, at a position
below `2 ^ 32`, the size of the lump being a multiple of the element size:
the `size / elementSize` elements of the file at their places, the vertices
and the two vectors of a texture-info record after `fixCoords`.  For
`parseVertices` and `parseEdges` the lump is to be smaller than `2 ^ 31`
bytes. -/
theorem loaders_read_every_element {α β γ δ : Type} (Model : Layout α) (Face : Layout β)
    (Plane : Layout γ) (T : Layout TexInfo) (Edge : Layout δ) (file : List Char)
    (fileOffset : Int) (header : Header) :
    (header.models.size % Model.size = 0 → ContainsLump file fileOffset header.models →
      BSPParser.parseModels Model file fileOffset header =
        .ok (lumpElements Model file (fileOffset + header.models.offset).toNat
          (header.models.size / Model.size))) ∧
    (header.faces.size % Face.size = 0 → ContainsLump file fileOffset header.faces →
      BSPParser.parseFaces Face file fileOffset header =
        .ok (lumpElements Face file (fileOffset + header.faces.offset).toNat
          (header.faces.size / Face.size))) ∧
    (header.planes.size % Plane.size = 0 → ContainsLump file fileOffset header.planes →
      BSPParser.parsePlanes Plane file fileOffset header =
        .ok (lumpElements Plane file (fileOffset + header.planes.offset).toNat
          (header.planes.size / Plane.size))) ∧
    (header.texinfo.size % T.size = 0 → ContainsLump file fileOffset header.texinfo →
      BSPParser.parseTexInfos T file fileOffset header =
        .ok ((lumpElements T file (fileOffset + header.texinfo.offset).toNat
          (header.texinfo.size / T.size)).map fun t =>
            { t with uVector := fixCoords t.uVector, vVector := fixCoords t.vVector })) ∧
    (header.ledges.size % int32Layout.size = 0 → ContainsLump file fileOffset header.ledges →
      BSPParser.parseEdgeList file fileOffset header =
        .ok (lumpElements int32Layout file (fileOffset + header.ledges.offset).toNat
          (header.ledges.size / int32Layout.size))) ∧
    (header.lightmaps.size % uint8Layout.size = 0 →
      ContainsLump file fileOffset header.lightmaps →
      BSPParser.parseLightMap file fileOffset header =
        .ok (lumpElements uint8Layout file (fileOffset + header.lightmaps.offset).toNat
          (header.lightmaps.size / uint8Layout.size))) ∧
    (header.vertices.size % vec3Layout.size = 0 → header.vertices.size < 2147483648 →
      ContainsLump file fileOffset header.vertices →
      BSPParser.parseVertices file fileOffset header =
        .ok ((lumpElements vec3Layout file (fileOffset + header.vertices.offset).toNat
          (header.vertices.size / vec3Layout.size)).map fixCoords)) ∧
    (header.edges.size % Edge.size = 0 → header.edges.size < 2147483648 →
      ContainsLump file fileOffset header.edges →
      BSPParser.parseEdges Edge file fileOffset header =
        .ok (lumpElements Edge file (fileOffset + header.edges.offset).toNat
          (header.edges.size / Edge.size))) := by
  refine ⟨?_, ?_, ?_, ?_, ?_, ?_, ?_, ?_⟩
  · intro _ h
    exact loadChecked_contains Model file fileOffset header.models _ (Nat.le_refl _) h
  · intro _ h
    exact loadChecked_contains Face file fileOffset header.faces _
      (Nat.div_mul_le_self _ _) h
  · intro _ h
    exact loadChecked_contains Plane file fileOffset header.planes _ (Nat.le_refl _) h
  · intro _ h
    unfold BSPParser.parseTexInfos
    rw [loadChecked_contains T file fileOffset header.texinfo _ (Nat.div_mul_le_self _ _) h]
    rfl
  · intro _ h
    exact loadChecked_contains int32Layout file fileOffset header.ledges _
      (Nat.div_mul_le_self _ _) h
  · intro _ h
    exact loadChecked_contains uint8Layout file fileOffset header.lightmaps _
      (Nat.le_refl _) h
  · intro _ hs h
    unfold BSPParser.parseVertices
    rw [loadUnchecked_contains vec3Layout file fileOffset header.vertices hs h]
    rfl
  · intro _ hs h
    exact loadUnchecked_contains Edge file fileOffset header.edges hs h

/-- An edge list of two entries at the position 1 of a file: the entries are
read at their places and keep their sign. -/
theorem parseEdgeList_signed :
    BSPParser.parseEdgeList (bytes [7, 255, 255, 255, 255, 2, 0, 0, 0]) 1
        { Header.empty with ledges := ⟨0, 8⟩ } =
      .ok (lumpElements int32Layout (bytes [7, 255, 255, 255, 255, 2, 0, 0, 0]) 1 2) ∧
    lumpElements int32Layout (bytes [7, 255, 255, 255, 255, 2, 0, 0, 0]) 1 2 = [-1, 2] :=
  ⟨(loaders_read_every_element uint8Layout uint8Layout uint8Layout quakeTexInfoLayout
    quakeEdgeLayout (bytes [7, 255, 255, 255, 255, 2, 0, 0, 0]) 1
    { Header.empty with ledges := ⟨0, 8⟩ }).2.2.2.2.1 (by decide) (by decide), by rfl⟩

/-- The `size_t` that `fread_s` receives for the `int32_t` holding
`2147483652`. -/
theorem toSizeT_large : toSizeT (wrapInt32 ((2147483652 : Nat) : Int)) =
    18446744071562067972 := by
  decide

/-- C11 fails for `parseVertices` on a lump of `2 ^ 31` bytes or more.  The
file of 2148532228 bytes `A` contains the vertex lump at the offset 0 of
2147483652 bytes, a multiple of the 12 bytes of a vertex, and a mebibyte
after it.  The byte count `sizeof(vec3) * count` is 2147483652; held in
`int32_t bytes` it is negative, and `fread_s` receives `2 ^ 64 - 2147483644`
both as the size of the vector and as the size to read.  `parseVertices` does
not return the 178956971 vertices of the file.  `parseLightMap`, which passes
its sizes as `size_t`, loads a lump of the same place and size. -/
theorem parseVertices_large_lump :
    (2147483652 : Nat) % vec3Layout.size = 0 ∧
    ContainsLump (List.replicate 2148532228 'A') 0 ⟨0, 2147483652⟩ ∧
    vec3Layout.size * (2147483652 / vec3Layout.size) = 2147483652 ∧
    toSizeT (wrapInt32 ((vec3Layout.size * (2147483652 / vec3Layout.size) : Nat) : Int)) =
      18446744073709551616 - 2147483644 ∧
    BSPParser.parseVertices (List.replicate 2148532228 'A') 0
        { Header.empty with vertices := ⟨0, 2147483652⟩ } ≠
      .ok ((lumpElements vec3Layout (List.replicate 2148532228 'A') 0 178956971).map
        fixCoords) ∧
    BSPParser.parseLightMap (List.replicate 2148532228 'A') 0
      { Header.empty with lightmaps := ⟨0, 2147483652⟩ } =
        .ok (lumpElements uint8Layout (List.replicate 2148532228 'A') 0 2147483652) := by
  have hin : ContainsLump (List.replicate 2148532228 'A') 0 ⟨0, 2147483652⟩ := by
    unfold ContainsLump
    rw [List.length_replicate]
    decide
  refine ⟨by decide, hin, by decide, by decide, ?_, ?_⟩
  · have hp : lumpPosition 0 ⟨0, 2147483652⟩ = 0 := by decide
    have hc : (2147483652 : Nat) / vec3Layout.size = 178956971 := by decide
    have hm : vec3Layout.size * 178956971 = 2147483652 := by decide
    have hl : loadUnchecked vec3Layout (List.replicate 2148532228 'A') 0 ⟨0, 2147483652⟩ =
        .error .bufferOverrun := by
      unfold loadUnchecked seek
      dsimp only
      rw [hp, hc, hm, toSizeT_large, readBlock_eq, List.drop_zero, List.take_replicate,
        List.length_replicate, hm]
      rw [if_pos (by decide)]
    have hv : BSPParser.parseVertices (List.replicate 2148532228 'A') 0
        { Header.empty with vertices := ⟨0, 2147483652⟩ } = .error .bufferOverrun := by
      unfold BSPParser.parseVertices
      show Except.map _ (loadUnchecked vec3Layout (List.replicate 2148532228 'A') 0
        ⟨0, 2147483652⟩) = _
      rw [hl]
      rfl
    rw [hv]
    intro h
    cases h
  · have hc : (2147483652 : Nat) / uint8Layout.size = 2147483652 := by decide
    have h := loadChecked_contains uint8Layout (List.replicate 2148532228 'A') 0
      ⟨0, 2147483652⟩ (2147483652 / uint8Layout.size * uint8Layout.size) (Nat.le_refl _) hin
    rw [hc] at h
    exact h

/-- C12 fails for the three loaders that do not look at what `fread_s`
returns.  Each file ends before the end of its lump, and the loader returns
successfully with contents that were not read from the file: `parseVertices`
on the 12 bytes of the vertex `(1, 2, 3)` with a lump of 24 bytes gives two
vertices, the second from the zero bytes of the resized vector;
`parseEdges` on the 4 bytes of one edge with a lump of 8 bytes gives two
edges; the entity text `\x7b\x7d` in a lump of 4 bytes is scanned together
with the two bytes `\x7b\x7d` that the new buffer happened to hold, and gives
two entities.  `parseEdgeList`, which compares the count that was read, fails
with the truncation error on a file of 4 bytes with a lump of 8 bytes. -/
theorem unchecked_reads_of_truncated_lumps :
    ((bytes [0, 0, 128, 63, 0, 0, 0, 64, 0, 0, 64, 64]).length < 0 + 0 + 24 ∧
      BSPParser.parseVertices (bytes [0, 0, 128, 63, 0, 0, 0, 64, 0, 0, 64, 64]) 0
          { Header.empty with vertices := ⟨0, 24⟩ } =
        .ok [⟨Float32.ofInt 1, Float32.ofInt (-3), Float32.ofInt (-2)⟩,
          ⟨Float32.zero, Float32.zero.neg, Float32.zero.neg⟩]) ∧
    ((bytes [1, 0, 2, 0]).length < 0 + 0 + 8 ∧
      BSPParser.parseEdges quakeEdgeLayout (bytes [1, 0, 2, 0]) 0
          { Header.empty with edges := ⟨0, 8⟩ } = .ok [(1, 2), (0, 0)]) ∧
    ("\x7b\x7d".toList.length < 0 + 0 + 4 ∧
      BSPParser.parseEntityLump "\x7b\x7d".toList 0
          { Header.empty with entities := ⟨0, 4⟩ } "ab\x7b\x7d".toList =
        .ok [Entity.empty, Entity.empty]) ∧
    BSPParser.parseEdgeList (bytes [1, 0, 0, 0]) 0 { Header.empty with ledges := ⟨0, 8⟩ } =
      .error .unexpectedEof :=
  ⟨⟨by decide, by rfl⟩, ⟨by decide, by rfl⟩, ⟨by decide, by rfl⟩, by rfl⟩

/-! ## Bytes that the scanner skips -/

/-- C18.  Bytes outside the recognised transitions are ignored by
`BSPParser::parseEntities`.  Let the scan of `before` end in the state `sc`.
Inserting after `before` any bytes other than the opening brace when `sc` is
outside an entity, or any bytes other than the quote and the closing brace
when `sc` is inside an entity and outside a quoted string (white space, new
lines, a nested opening brace), leaves the result of the parse unchanged: the
same entity sequence when the parse completes. -/
theorem parseEntities_ignores_bytes (before inserted after : List Char) (sc : Scanner)
    (hb : scan Scanner.init before = .ok sc)
    (hi : (sc.state = .OUTSIDE_ENTITY ∧ ∀ c ∈ inserted, c ≠ '{') ∨
      (sc.state = .INSIDE_ENTITY ∧ ∀ c ∈ inserted, c ≠ '"' ∧ c ≠ '}')) :
    BSPParser.parseEntities (before ++ inserted ++ after) =
      BSPParser.parseEntities (before ++ after) := by
  have hs : scan sc inserted = .ok sc := by
    rcases hi with ⟨h1, h2⟩ | ⟨h1, h2⟩
    · exact scan_outside sc inserted h1 h2
    · exact scan_gap sc inserted h1 h2
  unfold BSPParser.parseEntities
  rw [List.append_assoc, scan_append, scan_append _ before after, hb, ok_bind, ok_bind,
    scan_append, hs, ok_bind]

/-- C18 on the text `\x7b"classname""a"\x7d`, with a space, a new line, an
opening brace and a tab inserted between the two tokens: the parse gives the
same entity, of the class name `a`. -/
theorem parseEntities_ignores_bytes_witness :
    BSPParser.parseEntities
        ("\x7b\"classname\"".toList ++ " \n\x7b\t".toList ++ "\"a\"\x7d".toList) =
      BSPParser.parseEntities ("\x7b\"classname\"".toList ++ "\"a\"\x7d".toList) ∧
    BSPParser.parseEntities ("\x7b\"classname\"".toList ++ "\"a\"\x7d".toList) =
      .ok [{ Entity.empty with className := ['a'] }] :=
  ⟨parseEntities_ignores_bytes "\x7b\"classname\"".toList " \n\x7b\t".toList
    "\"a\"\x7d".toList _ rfl (Or.inr ⟨rfl, by decide⟩), rfl⟩

/-- Inside a block a text without a closing brace outside its quoted strings
appends no entity, whether the scan begins in a string or not. -/
theorem scan_bracesQuoted (text : List Char) : ∀ (sc sc' : Scanner),
    scan sc text = .ok sc' →
    (sc.state = .INSIDE_STRING → bracesQuoted true text = true →
      sc'.entities = sc.entities) ∧
    (sc.state = .INSIDE_ENTITY → bracesQuoted false text = true →
      sc'.entities = sc.entities) := by
  induction text with
  | nil =>
    intro sc sc' h
    rw [scan_nil] at h
    injection h with h
    rw [h]
    exact ⟨fun _ _ => rfl, fun _ _ => rfl⟩
  | cons c text ih =>
    intro sc sc' h
    rw [scan_cons] at h
    constructor
    · intro hs hq
      by_cases hc : c = '"'
      · simp only [bracesQuoted, hc, if_true] at hq
        have hstep : step sc c = closeToken sc := by
          simp [step, hs, hc]
        rw [hstep] at h
        unfold closeToken at h
        split_ifs at h with hl
        · cases hint : interpret sc.key sc.entity (cstr sc.token) with
          | error f => rw [hint] at h; cases h
          | ok p =>
            rw [hint] at h
            exact (ih { sc with state := .INSIDE_ENTITY, key := p.1, entity := p.2 } sc' h).2
              rfl hq
        · cases h
      · simp only [bracesQuoted, hc, if_false] at hq
        have hstep : step sc c = if sc.token.length < tokenBufferSize then
            .ok { sc with token := sc.token ++ [c] } else .error .bufferOverrun := by
          simp [step, hs, hc]
        rw [hstep] at h
        split_ifs at h with hl
        · rw [ok_bind] at h
          exact (ih { sc with token := sc.token ++ [c] } sc' h).1 hs hq
        · cases h
    · intro hs hq
      by_cases hc : c = '"'
      · simp only [bracesQuoted, hc, if_true] at hq
        have hstep : step sc c = .ok { sc with token := [], state := .INSIDE_STRING } := by
          simp [step, hs, hc]
        rw [hstep, ok_bind] at h
        exact (ih { sc with token := [], state := .INSIDE_STRING } sc' h).1 rfl hq
      · by_cases hb : c = '}'
        · simp [bracesQuoted, hb] at hq
        · simp only [bracesQuoted, hc, hb, if_false] at hq
          have hstep : step sc c = .ok sc := by
            simp [step, hs, hc, hb]
          rw [hstep, ok_bind] at h
          exact (ih sc sc' h).2 hs hq

/-- C19 (as amended).  An entity is appended only when its closing brace is
seen outside a quoted string.  Let the scan of the buffer `b` end in the
state `sc`, not inside a quoted string, and let `text` have no closing brace
outside its quoted strings.  When the parse of `b` followed by an opening
brace and `text` completes, it yields the entity sequence of the parse of
`b`: a block that is not closed, or whose only closing braces lie inside
quoted tokens, contributes no entity. -/
theorem unclosed_block_appends_nothing (b text : List Char) (sc : Scanner)
    (es : List Entity)
    (hb : scan Scanner.init b = .ok sc) (hs : sc.state ≠ .INSIDE_STRING)
    (hq : bracesQuoted false text = true)
    (h : BSPParser.parseEntities (b ++ '{' :: text) = .ok es) :
    BSPParser.parseEntities b = .ok es := by
  unfold BSPParser.parseEntities at h ⊢
  rw [hb]
  rw [scan_append, hb, ok_bind, scan_cons] at h
  obtain ⟨sc1, h1, h2, h3⟩ : ∃ sc1, step sc '{' = .ok sc1 ∧ sc1.state = .INSIDE_ENTITY ∧
      sc1.entities = sc.entities := by
    cases hst : sc.state with
    | OUTSIDE_ENTITY =>
      exact ⟨{ sc with state := .INSIDE_ENTITY, entity := Entity.empty },
        by simp [step, hst], rfl, rfl⟩
    | INSIDE_ENTITY => exact ⟨sc, by simp [step, hst], hst, rfl⟩
    | INSIDE_STRING => exact absurd hst hs
  rw [h1, ok_bind] at h
  cases h4 : scan sc1 text with
  | error f => rw [h4] at h; cases h
  | ok sc2 =>
    rw [h4] at h
    have h5 := (scan_bracesQuoted text sc1 sc2 h4).2 h2 hq
    injection h with h
    subst h
    show Except.ok sc.entities = Except.ok sc2.entities
    rw [h5, h3]

/-- C19 (as amended) on the buffer `\x7b"classname" "a"\x7d ` followed by the
unclosed block `\x7b"classname" "b \x7d" \x7b "origin`, whose only closing
brace lies in a quoted token: the parse gives the one entity of the buffer. -/
theorem unclosed_block_appends_nothing_witness :
    BSPParser.parseEntities ("\x7b\"classname\" \"a\"\x7d ".toList ++
        '{' :: "\"classname\" \"b \x7d\" \x7b \"origin".toList) =
      .ok [{ Entity.empty with className := ['a'] }] ∧
    BSPParser.parseEntities "\x7b\"classname\" \"a\"\x7d ".toList =
      .ok [{ Entity.empty with className := ['a'] }] :=
  ⟨rfl, unclosed_block_appends_nothing "\x7b\"classname\" \"a\"\x7d ".toList
    "\"classname\" \"b \x7d\" \x7b \"origin".toList _ _ rfl (by decide) (by decide) rfl⟩

/-- C19 as stated fails for a buffer that ends inside a quoted string.  The
parse of `\x7b"a` completes with no entity; the suffix `\x7b"\x7d"` is an
opening brace followed by bytes whose only closing brace is between quotes;
the parse of the two together completes with one entity, because the first
quote of the suffix closes the string that the buffer left open. -/
theorem unclosed_block_appends_nothing_counterexample :
    BSPParser.parseEntities "\x7b\"a".toList = .ok [] ∧
    bracesQuoted false "\"\x7d\"".toList = true ∧
    BSPParser.parseEntities ("\x7b\"a".toList ++ '{' :: "\"\x7d\"".toList) =
      .ok [Entity.empty] :=
  ⟨rfl, rfl, rfl⟩

/-! ## The origin rule and the normalizer -/

theorem ofMagnitude_not (s : Bool) (m : Nat) (hm : m ≠ 0) :
    Float32.ofMagnitude (!s) m = (Float32.ofMagnitude s m).neg := by
  unfold Float32.ofMagnitude
  rw [if_neg hm, if_neg hm]
  dsimp only
  split_ifs <;> rfl

/-- The conversion of `-n` is the conversion of `n` with the sign bit flipped,
unless `n` is zero. -/
theorem ofInt_neg (n : Int) (hn : n ≠ 0) :
    Float32.ofInt (-n) = (Float32.ofInt n).neg := by
  unfold Float32.ofInt
  have hm : n.natAbs ≠ 0 := by omega
  have hs : decide (-n < 0) = !decide (n < 0) := by
    by_cases h : n < 0
    · simp only [h, decide_True, Bool.not_true, decide_eq_false_iff_not]; omega
    · simp only [h, decide_False, Bool.not_false, decide_eq_true_eq]; omega
  rw [Int.natAbs_neg, hs, ofMagnitude_not _ _ hm]

theorem sameNumber_ofInt_neg (n : Int) :
    Float32.sameNumber (Float32.ofInt (-n)) (Float32.ofInt n).neg := by
  by_cases hn : n = 0
  · subst hn
    right
    decide
  · left
    exact ofInt_neg n hn

/-- C20 (as amended).  For all integers `X`, `Y`, `Z` of the 32-bit signed
range with `Y` and `Z` other than `-2 ^ 31`, `parseOrigin` applied to the
token `"X Y Z"` produces the vector `(X, -Z, -Y)`, converted to `float`.  It
is the vector that `fixCoords` gives from `(X, Y, Z)` as a vector of numbers;
bit for bit it is that vector when `Y` and `Z` are not zero, and for a zero
`Y` or `Z` the origin rule stores `+0.0` where `fixCoords` gives `-0.0`. -/
theorem parseOrigin_fixCoords (X Y Z : Int) (o : vec3)
    (hX : -2147483648 ≤ X ∧ X ≤ 2147483647) (hY : -2147483648 < Y ∧ Y ≤ 2147483647)
    (hZ : -2147483648 < Z ∧ Z ≤ 2147483647) :
    ∃ v, parseOrigin (originText X Y Z) o = .ok (decimal X, v) ∧
      v = ⟨Float32.ofInt X, Float32.ofInt (-Z), Float32.ofInt (-Y)⟩ ∧
      v.x = (fixCoords ⟨Float32.ofInt X, Float32.ofInt Y, Float32.ofInt Z⟩).x ∧
      Float32.sameNumber v.y
        (fixCoords ⟨Float32.ofInt X, Float32.ofInt Y, Float32.ofInt Z⟩).y ∧
      Float32.sameNumber v.z
        (fixCoords ⟨Float32.ofInt X, Float32.ofInt Y, Float32.ofInt Z⟩).z ∧
      (Y ≠ 0 → Z ≠ 0 →
        v = fixCoords ⟨Float32.ofInt X, Float32.ofInt Y, Float32.ofInt Z⟩) := by
  have hwY : wrapInt32 (-Y) = -Y := wrapInt32_of_range _ (by omega) (by omega)
  have hwZ : wrapInt32 (-Z) = -Z := wrapInt32_of_range _ (by omega) (by omega)
  refine ⟨_, parseOrigin_originText X Y Z o hX ⟨by omega, hY.2⟩ ⟨by omega, hZ.2⟩, ?_, rfl,
    ?_, ?_, ?_⟩
  · rw [hwY, hwZ]
  · rw [hwZ]
    exact sameNumber_ofInt_neg Z
  · rw [hwY]
    exact sameNumber_ofInt_neg Y
  · intro hY0 hZ0
    rw [hwY, hwZ, ofInt_neg Y hY0, ofInt_neg Z hZ0]
    rfl

/-- C20 (as amended) on the token `"10 20 30"`: the origin is `(10, -30,
-20)`, the vector that `fixCoords` gives from `(10, 20, 30)`. -/
theorem parseOrigin_fixCoords_witness :
    ∃ v, parseOrigin "10 20 30".toList vec3.zero = .ok ("10".toList, v) ∧
      v = ⟨Float32.ofInt 10, Float32.ofInt (-30), Float32.ofInt (-20)⟩ ∧
      v = fixCoords ⟨Float32.ofInt 10, Float32.ofInt 20, Float32.ofInt 30⟩ :=
  match parseOrigin_fixCoords 10 20 30 vec3.zero (by decide) (by decide) (by decide) with
  | ⟨v, h1, h2, _, _, _, h3⟩ => ⟨v, h1, h2, h3 (by decide) (by decide)⟩

/-- C20 as stated fails.  On the token `"1 -2147483648 1"` the origin rule
negates `-2 ^ 31` as an `int`, which gives `-2 ^ 31` again, and stores
`z = -2147483648`, where `fixCoords` of `(1, -2147483648, 1)` has
`z = 2147483648`.  On the token `"1 0 0"` the origin rule stores
`(1, +0.0, +0.0)`, where `fixCoords` of `(1, 0, 0)` is `(1, -0.0, -0.0)`. -/
theorem parseOrigin_fixCoords_counterexample :
    (∃ v, parseOrigin (originText 1 (-2147483648) 1) vec3.zero = .ok (decimal 1, v) ∧
      v.z.toInt? = some (-2147483648) ∧
      (fixCoords ⟨Float32.ofInt 1, Float32.ofInt (-2147483648), Float32.ofInt 1⟩).z.toInt? =
        some 2147483648) ∧
    (∃ v, parseOrigin (originText 1 0 0) vec3.zero = .ok (decimal 1, v) ∧
      v = ⟨Float32.ofInt 1, Float32.zero, Float32.zero⟩ ∧
      fixCoords ⟨Float32.ofInt 1, Float32.ofInt 0, Float32.ofInt 0⟩ =
        ⟨Float32.ofInt 1, Float32.zero.neg, Float32.zero.neg⟩ ∧
      Float32.zero ≠ Float32.zero.neg) :=
  ⟨⟨_, rfl, by decide, by decide⟩, ⟨_, rfl, rfl, rfl, by decide⟩⟩

end Quark
